import Mathlib

/-!
A shallow embedding of `videostore/concat.go`.

The file `videostore/concat.go` drives a native concatenation routine from a
transient plan file.  This development embeds

* `generateConcatFilePath`, `writeConcatFileEntries`, `cleanupConcatTxtFiles`,
  `newConcater` and `concater.Concat` as functions over an explicit file-system
  state (`FS`) and an explicit record of events (`Run`); `newConcater` and the
  sweep also take the logger they are given, which may be nil, and may end in a
  panic;
* the part of the Go standard library those functions lean on
  (`fmt.Sprintf` with one `%s`, `filepath.Join`/`Clean`/`Split`/`Match`/`Glob`,
  `os.Create`, `WriteString`, `os.Stat`, `os.Remove`);
* everything the file takes from elsewhere — `getSortedFiles`,
  `validateTimeRange`, `matchStorageToRange`, `concatFileEntry.string`,
  `ffmpegError`, the constants of `concat.h`, the native routine, the fresh
  UUID and the failures of the operating system — as the fields of `Env`.

Definitions come first, then a concrete store for evaluating them, then the
facts, grouped by function.
-/

namespace videostore

/-! ## Paths -/

/-- The path separator of the platform the store runs on. -/
def Separator : Char := '/'

/-- Split a path into its components at every separator (`a//b` has an empty
component in the middle, `/a` an empty one in front). -/
def splitSep : List Char → List (List Char)
  | [] => [[]]
  | c :: cs =>
    if c = Separator then [] :: splitSep cs
    else
      match splitSep cs with
      | [] => [[c]]
      | h :: t => (c :: h) :: t

/-- One step of `filepath.Clean` on the stack of components kept so far
(innermost component first): empty and `.` components are dropped, `..` pops the
previous component when there is one to pop, stays put at the root and piles up
in front of a relative path. -/
def cleanStep (rooted : Bool) (stack : List (List Char)) (comp : List Char) :
    List (List Char) :=
  if comp = [] then stack
  else if comp = ['.'] then stack
  else if comp = ['.', '.'] then
    match stack with
    | [] => if rooted then [] else [['.', '.']]
    | top :: rest => if top = ['.', '.'] then comp :: top :: rest else rest
  else comp :: stack

/-- Components glued back together with single separators. -/
def joinSep : List (List Char) → List Char
  | [] => []
  | [c] => c
  | c :: d :: rest => c ++ Separator :: joinSep (d :: rest)

/-- Lexical cleaning, `filepath.Clean` on a list of characters. -/
def cleanChars (p : List Char) : List Char :=
  match p with
  | [] => ['.']
  | c :: _ =>
    let rooted : Bool := c = Separator
    let body := joinSep ((splitSep p).foldl (cleanStep rooted) []).reverse
    if rooted then Separator :: body
    else if body = [] then ['.'] else body

/-- Model of `filepath.Clean`. -/
def Clean (p : String) : String := ⟨cleanChars p.data⟩

/-- Model of `filepath.Join(dir, name)`: empty elements are ignored, the
others are joined by the separator and the result is cleaned. -/
def Join (dir name : String) : String :=
  if dir = "" then (if name = "" then "" else Clean name)
  else if name = "" then Clean dir
  else Clean (dir ++ "/" ++ name)

/-- Model of `fmt.Sprintf(format, arg)` for a format with one `%s` verb and no
other verb: the argument takes the place of the verb. -/
def sprintfChars : List Char → List Char → List Char
  | [], _ => []
  | '%' :: 's' :: rest, arg => arg ++ rest
  | c :: rest, arg => c :: sprintfChars rest arg

/-- Model of `fmt.Sprintf(format, arg)`, see `sprintfChars`. -/
def Sprintf (format arg : String) : String := ⟨sprintfChars format.data arg.data⟩

/-- The naming pattern of plan files (the constant keeps the source's
spelling). -/
def conactTxtFilePattern : String := "concat_%s.txt"

/-- `generateConcatFilePath` (`concat.go`, lines 147-152) as a function of the
transient directory (`concatTxtDir`, initialised from `os.TempDir()`) and of
the identifier `uuid.New().String()` returned for this call. -/
def generateConcatFilePath (concatTxtDir uniqueID : String) : String :=
  let fileName := Sprintf conactTxtFilePattern uniqueID
  let filePath := Join concatTxtDir fileName
  filePath

/-- Lower-case hexadecimal digit. -/
def isHexDigit (c : Char) : Bool :=
  ('0' ≤ c && c ≤ '9') || ('a' ≤ c && c ≤ 'f')

/-- Character-by-character check of the textual form of a UUID, from position
`i` on: a dash at positions 8, 13, 18 and 23, lower-case hexadecimal digits
elsewhere. -/
def uuidCharsFrom : Nat → List Char → Bool
  | _, [] => true
  | i, c :: cs =>
    (if i = 8 ∨ i = 13 ∨ i = 18 ∨ i = 23 then decide (c = '-') else isHexDigit c) &&
      uuidCharsFrom (i + 1) cs

/-- The textual form `uuid.UUID.String()` produces: 36 characters, a dash at
positions 8, 13, 18 and 23 and lower-case hexadecimal digits elsewhere. -/
def isUUIDString (u : String) : Bool :=
  decide (u.data.length = 36) && uuidCharsFrom 0 u.data

/-- The text `filepath.Join` puts in front of a file name placed in `dir`: the
cleaned directory followed by a separator (nothing at all for the directories
that clean to `.`). -/
def dirPrefixChars (dir : List Char) : List Char :=
  match dir with
  | [] => []
  | c :: _ =>
    let rooted : Bool := c = Separator
    let stack := (splitSep dir).foldl (cleanStep rooted) []
    (if rooted then [Separator] else []) ++
      (if stack = [] then [] else joinSep stack.reverse ++ [Separator])

/-- String form of `dirPrefixChars`. -/
def dirPrefix (dir : String) : String := ⟨dirPrefixChars dir.data⟩

/-- A single path component that names a file: not empty, not `.`, not `..`
and free of separators. -/
def IsFileName (n : List Char) : Prop :=
  n ≠ [] ∧ n ≠ ['.'] ∧ n ≠ ['.', '.'] ∧ Separator ∉ n

/-- Model of `filepath.Split` on a list of characters: the part up to and
including the last separator, and the part after it. -/
def splitChars : List Char → List Char × List Char
  | [] => ([], [])
  | c :: cs =>
    match splitChars cs with
    | ([], f) => if c = Separator then ([c], f) else ([], c :: f)
    | (d :: ds, f) => (c :: d :: ds, f)

/-- Remove `pre` from the front of `p` when `p` starts with it. -/
def stripLeading : List Char → List Char → Option (List Char)
  | [], p => some p
  | _ :: _, [] => none
  | a :: as, b :: bs => if a = b then stripLeading as bs else none

/-- All the ways a `*` can be consumed: it stands for any run of characters
that are not separators, and `k` decides on what is left. -/
def matchStarRest (k : List Char → Bool) : List Char → Bool
  | [] => k []
  | c :: cs => k (c :: cs) || (c != Separator && matchStarRest k cs)

/-- Model of `filepath.Match` for patterns made of literal characters and `*`
(the only kind this package builds): a literal matches itself and `*` matches
any sequence of non-separator characters. -/
def matchChars : List Char → List Char → Bool
  | [], name => name.isEmpty
  | p :: ps, name =>
    if p = '*' then matchStarRest (matchChars ps) name
    else
      match name with
      | [] => false
      | c :: cs => p == c && matchChars ps cs

/-- Go's `hasMeta`: whether a path contains one of the characters `Match`
gives a meaning to. -/
def hasMeta (p : List Char) : Bool :=
  p.any (fun c => c == '*' || c == '?' || c == '[' || c == '\\')

/-- Whether a file pattern is made of literal characters and `*` only. -/
def isStarPattern (p : List Char) : Bool :=
  p.all (fun c => !(c == '?' || c == '[' || c == '\\'))

/-- Whether `path` is among the results of `filepath.Glob(pattern)` when it
names an existing file: the pattern is split into directory and file pattern,
the path has to be an entry of that directory (the directory text followed by a
non-empty name without separator) and the name has to match the file
pattern. -/
def globMatches (pattern path : String) : Bool :=
  match splitChars pattern.data with
  | (dir, file) =>
    match stripLeading dir path.data with
    | none => false
    | some name => !name.isEmpty && !name.contains Separator && matchChars file name

/-! ## File system, events and collaborators -/

/-- Errors are represented by their message. -/
abbrev Error := String

/-- The file system: the regular files that exist, each with its content. A
path is looked up front to back; `remove` and `create` keep at most one
binding per path alive. -/
abbrev FS := List (String × String)

namespace FS

/-- Whether a file exists at `p`. -/
def fileExists (fs : FS) (p : String) : Bool := fs.any (fun f => f.1 == p)

/-- Content of the file at `p`, if there is one. -/
def content (fs : FS) (p : String) : Option String :=
  (fs.find? (fun f => f.1 == p)).map (fun f => f.2)

/-- The file system without the file at `p`. -/
def remove (fs : FS) (p : String) : FS := fs.filter (fun f => f.1 != p)

/-- The file system after `p` was created or truncated to `s`. -/
def create (fs : FS) (p s : String) : FS := (p, s) :: fs.remove p

/-- The file system after `s` was appended to the file at `p`. -/
def append (fs : FS) (p s : String) : FS :=
  fs.map (fun f => if f.1 == p then (f.1, f.2 ++ s) else f)

/-- The paths at which a file exists. -/
def paths (fs : FS) : List String := fs.map (fun f => f.1)

end FS

/-- What a run does that can be observed from outside, in the order in which
it happens: every call of an external collaborator, of the operating system
and of the logger. -/
inductive Event where
  | getSortedFiles (storagePath : String)
  | validateTimeRange
  | matchStorageToRange
  | generateConcatFilePath (filePath : String)
  | osCreate (filePath : String) (ok : Bool)
  | writeString (filePath data : String) (ok : Bool)
  | fileClose (filePath : String)
  | osStat (filePath : String) (ok : Bool)
  | osRemove (filePath : String) (ok : Bool)
  | glob (pattern : String) (ok : Bool)
  | video_store_concat (concatFilePath outputPath : String) (ret : Int)
  | log (args : List String)
  deriving DecidableEq, Repr

/-- Everything `concat.go` takes from outside the file: the package-level
variable and constants it reads, the functions of the package defined in other
files, the native routine, the fresh identifier and the failures the operating
system may report. -/
structure Env (Segment Entry Time : Type) where
  /-- The package variable `concatTxtDir`, set from `os.TempDir()`. -/
  concatTxtDir : String
  /-- The package constant `segmentSeconds`. -/
  segmentSeconds : Int
  /-- The constant `VIDEO_STORE_CONCAT_RESP_OK` of `concat.h`. -/
  VIDEO_STORE_CONCAT_RESP_OK : Int
  /-- The constant `VIDEO_STORE_CONCAT_RESP_ERROR` of `concat.h`. -/
  VIDEO_STORE_CONCAT_RESP_ERROR : Int
  /-- The listing `getSortedFiles(path)`; it reads the file system. -/
  getSortedFiles : String → FS → Except Error (List Segment)
  /-- The validator `validateTimeRange(files, start)`; `none` is `nil`. -/
  validateTimeRange : List Segment → Time → Option Error
  /-- The matcher `matchStorageToRange(files, start, end, logger)`. -/
  matchStorageToRange : List Segment → Time → Time → List Entry
  /-- The method `concatFileEntry.string()`. -/
  entryString : Entry → List String
  /-- The diagnostic text `ffmpegError(ret)`. -/
  ffmpegError : Int → String
  /-- The native routine `video_store_concat(concatFilePath, outputPath)`: it
  may change the file system in any way and returns a code. -/
  video_store_concat : String → String → FS → FS × Int
  /-- The value of `uuid.New().String()` for this call. -/
  newUUID : String
  /-- Failure of `os.Create(filePath)`, if any. -/
  createErr : String → Option Error
  /-- Failure of the `k`-th `WriteString` of a call (counted from 0), if any,
  with the number of characters that still reached the file. -/
  writeErr : Nat → Option (Nat × Error)
  /-- Failure of `os.Stat(filePath)` on an existing file, if any. -/
  statErr : String → Option Error
  /-- Failure of `os.Remove(filePath)` on an existing file, if any. -/
  removeErr : String → Option Error
  /-- The result of `filepath.Glob(pattern)` for a pattern outside the
  fragment modelled by `globResult`: an error for a malformed pattern, a
  listing otherwise. -/
  globMeta : String → FS → Except Error (List String)
  /-- What reading the directory `dir` yields when it fails: `os.Stat`,
  `os.Open` or `Readdirnames` report an error, which `filepath.Glob` ignores,
  and the names are the entries read before the failure (none when the
  directory could not be opened). `none`: the directory is read completely. -/
  readDirErr : String → Option (List String)

/-- State of a run: the file system and the events so far. -/
structure Run where
  fs : FS
  events : List Event
  deriving DecidableEq, Repr

/-- Record one more event. -/
def Run.emit (r : Run) (e : Event) : Run := { r with events := r.events ++ [e] }

/-- The receiver of the methods, without its logger, which is kept apart:
`Concat` is stated for a receiver whose logger works (its calls are the `log`
events), `newConcater` and the sweep take the logger they are given as the
argument `logger`. -/
structure concater where
  storagePath : String
  uploadPath : String
  segmentDur : Int
  deriving DecidableEq, Repr

/-- A value of the interface type `logging.Logger` as `newConcater` may
receive it: the nil interface, on which a method call panics, or a logger that
records what it is given. -/
inductive Logger where
  | nil
  | working
  deriving DecidableEq, Repr

/-- How a call ends: it returns a value, or it panics. -/
inductive Ending (α : Type) where
  | returned (value : α)
  | panicked
  deriving DecidableEq, Repr

/-- The call `logger.Error(args...)`: `none` is the panic of a method call on
the nil interface. -/
def logError (logger : Logger) (args : List String) (r : Run) : Option Run :=
  match logger with
  | Logger.nil => none
  | Logger.working => some (r.emit (Event.log args))

/-- The error `os.Stat` and `os.Remove` report for a path without a file. -/
def errNotExist : Error := "no such file or directory"

section Operations

variable {Segment Entry Time : Type}

/-- Model of `os.Stat(p)`: `none` stands for a nil error. -/
def osStat (env : Env Segment Entry Time) (p : String) (r : Run) : Run × Option Error :=
  if r.fs.fileExists p then
    match env.statErr p with
    | some e => (r.emit (.osStat p false), some e)
    | none => (r.emit (.osStat p true), none)
  else (r.emit (.osStat p false), some errNotExist)

/-- Model of `os.Remove(p)`: `none` stands for a nil error. -/
def osRemove (env : Env Segment Entry Time) (p : String) (r : Run) : Run × Option Error :=
  if r.fs.fileExists p then
    match env.removeErr p with
    | some e => (r.emit (.osRemove p false), some e)
    | none => ({ fs := r.fs.remove p, events := r.events ++ [.osRemove p true] }, none)
  else (r.emit (.osRemove p false), some errNotExist)

/-- What `filepath.Glob(pattern)` returns. When the directory part of the
pattern has no metacharacter and its file part is made of literal characters
and `*`, `Glob` cannot fail: it reads the directory and returns the entries
whose name matches. Errors of that reading are ignored: the result is then made
of the names `readDirErr` says were read. When the directory is read completely
the result is the existing paths the pattern matches, each once (the order,
which `Glob` sorts, plays no role here). Any other pattern may be malformed,
and is expanded in ways that are not modelled: its result is taken from the
environment. -/
def globResult (env : Env Segment Entry Time) (pattern : String) (fs : FS) :
    Except Error (List String) :=
  match splitChars pattern.data with
  | (dir, file) =>
    if hasMeta dir || !isStarPattern file then env.globMeta pattern fs
    else
      match env.readDirErr ⟨dir⟩ with
      | some names =>
        .ok ((names.filter (fun n => matchChars file n.data)).map (fun n => ⟨dir ++ n.data⟩))
      | none => .ok (fs.paths.filter (globMatches pattern)).dedup

/-- Model of `filepath.Glob(pattern)`, see `globResult`. -/
def Glob (env : Env Segment Entry Time) (pattern : String) (r : Run) :
    Run × Except Error (List String) :=
  match globResult env pattern r.fs with
  | .error e => (r.emit (.glob pattern false), .error e)
  | .ok files => (r.emit (.glob pattern true), .ok files)

/-- The inner loop of `writeConcatFileEntries`: one `WriteString(line + "\n")`
per line, stopping at the first failure. `k` counts the writes of the call. -/
def writeLines (env : Env Segment Entry Time) (filePath : String) :
    List String → Run × Nat → (Run × Nat) × Option Error
  | [], st => (st, none)
  | line :: rest, (r, k) =>
    match env.writeErr k with
    | some (n, e) =>
      (({ fs := r.fs.append filePath ⟨(line ++ "\n").data.take n⟩,
          events := r.events ++ [.writeString filePath (line ++ "\n") false] }, k + 1), some e)
    | none =>
      writeLines env filePath rest
        ({ fs := r.fs.append filePath (line ++ "\n"),
           events := r.events ++ [.writeString filePath (line ++ "\n") true] }, k + 1)

/-- The outer loop of `writeConcatFileEntries`, over the entries. -/
def writeEntries (env : Env Segment Entry Time) (filePath : String) :
    List Entry → Run × Nat → (Run × Nat) × Option Error
  | [], st => (st, none)
  | entry :: rest, st =>
    let lines := env.entryString entry
    match writeLines env filePath lines st with
    | (st1, some err) => (st1, some err)
    | (st1, none) => writeEntries env filePath rest st1

/-- `writeConcatFileEntries(entries, filePath)` (`concat.go`, lines 108-125):
the file is created (or truncated), the entries are written line by line and
the file is closed on the way out; the first error is returned. -/
def writeConcatFileEntries (env : Env Segment Entry Time) (entries : List Entry)
    (filePath : String) (r : Run) : Run × Option Error :=
  match env.createErr filePath with
  | some err => (r.emit (.osCreate filePath false), some err)
  | none =>
    let r1 : Run := { fs := r.fs.create filePath "", events := r.events ++ [.osCreate filePath true] }
    match writeEntries env filePath entries (r1, 0) with
    | ((r2, _), err) => (r2.emit (.fileClose filePath), err)

/-- The loop of `cleanupConcatTxtFiles`: every file is removed in turn, a
failure is logged and the loop goes on; it ends in a panic when the logger is
nil at the moment a failure has to be logged. -/
def removeFiles (env : Env Segment Entry Time) (logger : Logger) :
    List String → Run → Run × Ending Unit
  | [], r => (r, .returned ())
  | file :: rest, r =>
    match osRemove env file r with
    | (r1, some err) =>
      match logError logger ["failed to remove file", err] r1 with
      | none => (r1, .panicked)
      | some r2 => removeFiles env logger rest r2
    | (r1, none) => removeFiles env logger rest r1

/-- `(*concater).cleanupConcatTxtFiles()` (`concat.go`, lines 130-143), on a
receiver whose logger is `logger`: a failing listing is logged and returned;
otherwise every listed file is removed and nil is returned. -/
def cleanupConcatTxtFiles (env : Env Segment Entry Time) (logger : Logger) (_c : concater)
    (r : Run) : Run × Ending (Option Error) :=
  let pattern := Sprintf conactTxtFilePattern "*"
  match Glob env (Join env.concatTxtDir pattern) r with
  | (r1, .error err) =>
    match logError logger ["failed to list files in /tmp", err] r1 with
    | none => (r1, .panicked)
    | some r2 => (r2, .returned (some err))
  | (r1, .ok files) =>
    match removeFiles env logger files r1 with
    | (r2, .panicked) => (r2, .panicked)
    | (r2, .returned _) => (r2, .returned none)

/-- `newConcater(storagePath, uploadPath, logger)` (`concat.go`, lines 34-49).
The pointer it returns, never nil, is `some` of the receiver and the logger
stored in it. An error of the sweep is logged and dropped. -/
def newConcater (env : Env Segment Entry Time) (storagePath uploadPath : String)
    (logger : Logger) (r : Run) :
    Run × Ending (Option (concater × Logger) × Option Error) :=
  let c : concater :=
    { storagePath := storagePath
      uploadPath := uploadPath
      segmentDur := env.segmentSeconds * 1000000000 }
  match cleanupConcatTxtFiles env logger c r with
  | (r1, .panicked) => (r1, .panicked)
  | (r1, .returned (some err)) =>
    match logError logger ["failed to cleanup concat txt files", err] r1 with
    | none => (r1, .panicked)
    | some r2 => (r2, .returned (some (c, logger), none))
  | (r1, .returned none) => (r1, .returned (some (c, logger), none))

/-- The deferred function of `Concat` (`concat.go`, lines 77-84): the plan
file is removed when `os.Stat` finds it, and a failing removal is logged. It
has no access to the value `Concat` returns. -/
def removeConcatFile (env : Env Segment Entry Time) (concatFilePath : String) (r : Run) : Run :=
  match osStat env concatFilePath r with
  | (r1, some _) => r1
  | (r1, none) =>
    match osRemove env concatFilePath r1 with
    | (r2, some err) =>
      r2.emit (.log ["failed to remove concat file %s, err: %s", concatFilePath, err])
    | (r2, none) => r2

/-- `(*concater).Concat(from, to, path)` (`concat.go`, lines 53-105): the
result `none` is a nil error. The deferred removal of the plan file is
registered after `writeConcatFileEntries` has returned and runs on both exits
that follow; the C strings allocated for the native call leave no trace in the
model. -/
def Concat (env : Env Segment Entry Time) (c : concater) (start stop : Time) (path : String)
    (r : Run) : Run × Option Error :=
  let r := r.emit (.getSortedFiles c.storagePath)
  match env.getSortedFiles c.storagePath r.fs with
  | .error err => (r.emit (.log ["failed to get sorted files", err]), some err)
  | .ok storageFiles =>
    if storageFiles.length = 0 then
      let err : Error := "no video data in storage"
      (r.emit (.log [err ++ ", path: " ++ path]), some err)
    else
      let r := r.emit .validateTimeRange
      match env.validateTimeRange storageFiles start with
      | some err => (r, some err)
      | none =>
        let r := r.emit .matchStorageToRange
        let concatEntries := env.matchStorageToRange storageFiles start stop
        if concatEntries.length = 0 then
          (r, some "no matching video data to save")
        else
          let concatFilePath := generateConcatFilePath env.concatTxtDir env.newUUID
          let r := r.emit (.generateConcatFilePath concatFilePath)
          match writeConcatFileEntries env concatEntries concatFilePath r with
          | (r, some err) => (removeConcatFile env concatFilePath r, some err)
          | (r, none) =>
            match env.video_store_concat concatFilePath path r.fs with
            | (fs1, ret) =>
              let r : Run :=
                { fs := fs1
                  events := r.events ++ [.video_store_concat concatFilePath path ret] }
              let result : Option Error :=
                if ret = env.VIDEO_STORE_CONCAT_RESP_OK then none
                else if ret = env.VIDEO_STORE_CONCAT_RESP_ERROR then
                  some "failed to concat segment files"
                else some ("failed to concat segment files: error: " ++ env.ffmpegError ret)
              (removeConcatFile env concatFilePath r, result)

end Operations

/-! ## The plan text, as the specification words it -/

/-- The lines of a plan, in entry order and, within an entry, in the order of
its `string()` output. -/
def planLines {Segment Entry Time : Type} (env : Env Segment Entry Time)
    (entries : List Entry) : List String :=
  (entries.map env.entryString).flatten

/-- Every line followed by exactly one line feed, one after the other. -/
def concatLines : List String → String
  | [] => ""
  | line :: rest => (line ++ "\n") ++ concatLines rest

/-- The events of the successful writes of `lines`. -/
def writeEvents (p : String) (lines : List String) : List Event :=
  lines.map (fun line => Event.writeString p (line ++ "\n") true)

/-- The pattern `cleanupConcatTxtFiles` hands to `filepath.Glob`. -/
def sweepPattern (concatTxtDir : String) : String :=
  Join concatTxtDir (Sprintf conactTxtFilePattern "*")

/-- The plan naming pattern, as the specification words it: a path of the
transient directory whose file name is `concat_`, any text without separator,
`.txt`. -/
def IsPlanFilePath (concatTxtDir p : String) : Prop :=
  ∃ mid : List Char, Separator ∉ mid ∧
    p.data = (dirPrefix concatTxtDir).data ++ ("concat_".data ++ mid ++ ".txt".data)

/-- The plan paths generated during a run, read off its events. -/
def generatedPaths (events : List Event) : List String :=
  events.filterMap (fun e =>
    match e with
    | Event.generateConcatFilePath p => some p
    | _ => none)

/-- The run `Concat` is in when it turns to the plan: the listing, the
validation, the matching and the generation of the plan path have been
recorded. -/
def planningRun (c : concater) (concatFilePath : String) (r : Run) : Run :=
  (((r.emit (Event.getSortedFiles c.storagePath)).emit Event.validateTimeRange).emit
    Event.matchStorageToRange).emit (Event.generateConcatFilePath concatFilePath)

/-- The value `Concat` returns for the code `ret` of the native routine. -/
def concatResult {Segment Entry Time : Type} (env : Env Segment Entry Time) (ret : Int) :
    Option Error :=
  if ret = env.VIDEO_STORE_CONCAT_RESP_OK then none
  else if ret = env.VIDEO_STORE_CONCAT_RESP_ERROR then some "failed to concat segment files"
  else some ("failed to concat segment files: error: " ++ env.ffmpegError ret)

/-- The events of the successful removals of `files`. -/
def removeEvents (files : List String) : List Event :=
  files.map (fun p => Event.osRemove p true)

/-! ## A concrete store, for evaluating the definitions -/

/-- A store with three segments, listed by their start second; an entry is a
segment path and its plan lines are a path line and one trim directive. All
operations of the operating system succeed and the native routine writes the
output file and returns `VIDEO_STORE_CONCAT_RESP_OK`. -/
def demoEnv : Env Nat String Nat where
  concatTxtDir := "/tmp"
  segmentSeconds := 30
  VIDEO_STORE_CONCAT_RESP_OK := 0
  VIDEO_STORE_CONCAT_RESP_ERROR := 1
  getSortedFiles := fun _ _ => .ok [0, 30, 60]
  validateTimeRange := fun _ _ => none
  matchStorageToRange := fun _ _ _ => ["a.mp4", "b.mp4"]
  entryString := fun e => ["file " ++ e, "inpoint 5"]
  ffmpegError := fun _ => "Invalid data found when processing input"
  video_store_concat := fun _ out fs => (fs.create out "video", 0)
  newUUID := "123e4567-e89b-12d3-a456-426614174000"
  createErr := fun _ => none
  writeErr := fun _ => none
  statErr := fun _ => none
  removeErr := fun _ => none
  globMeta := fun _ _ => .ok []
  readDirErr := fun _ => none

/-- The receiver used with `demoEnv`. -/
def demoConcater : concater :=
  { storagePath := "/data", uploadPath := "/upload", segmentDur := 30000000000 }

/-- The plan path of a call under `demoEnv`. -/
def demoPlanPath : String := "/tmp/concat_123e4567-e89b-12d3-a456-426614174000.txt"

/-- A run that starts with one unrelated file and no event. -/
def demoRun : Run := { fs := [("/data/a.mp4", "A")], events := [] }

/-- An environment in which `os.Create` is refused. -/
def demoEnvCreateFails : Env Nat String Nat :=
  { demoEnv with createErr := fun _ => some "permission denied" }

/-- An environment in which the third `WriteString` fails after four
characters. -/
def demoEnvWriteFails : Env Nat String Nat :=
  { demoEnv with writeErr := fun k => if k = 2 then some (4, "no space left on device") else none }

/-- An environment whose transient directory has a name that is a malformed
pattern, so that `filepath.Glob` reports `ErrBadPattern`. -/
def demoEnvGlobFails : Env Nat String Nat :=
  { demoEnv with
    concatTxtDir := "/tmp/["
    globMeta := fun _ _ => .error "syntax error in pattern" }

/-- A run that starts with a plan file left behind in the directory of
`demoEnvGlobFails`. -/
def demoRunBadDir : Run :=
  { fs := [("/tmp/[/concat_123e4567-e89b-12d3-a456-426614174000.txt", "file a.mp4\n")]
    events := [] }

/-- An environment whose transient directory cannot be read. -/
def demoEnvUnreadable : Env Nat String Nat :=
  { demoEnv with readDirErr := fun _ => some [] }

/-- An environment in which the removal of `/tmp/concat_a.txt` is refused. -/
def demoEnvSweepRemoveFails : Env Nat String Nat :=
  { demoEnv with
    removeErr := fun p => if p = "/tmp/concat_a.txt" then some "permission denied" else none }

/-- A run that starts with two plan files left behind, a file of the
transient directory that is no plan file and a file elsewhere. -/
def demoRunOrphans : Run :=
  { fs := [("/tmp/concat_a.txt", "x"), ("/tmp/concat_b.txt", "y"), ("/tmp/notes.txt", "n"),
      ("/data/a.mp4", "A")]
    events := [] }

/-- An environment whose storage directory holds no segment. -/
def demoEnvEmpty : Env Nat String Nat :=
  { demoEnv with getSortedFiles := fun _ _ => .ok [] }

/-- An environment whose catalog covers the seconds 0 to 100 in ten segments
and whose validator rejects a start that lies after all of them. -/
def demoEnvRange : Env Nat String Nat :=
  { demoEnv with
    getSortedFiles := fun _ _ => .ok [0, 10, 20, 30, 40, 50, 60, 70, 80, 90]
    validateTimeRange := fun segs start =>
      if segs.all (fun s => s + 10 ≤ start) then some "requested range is not available" else none }

/-- An environment whose matcher finds nothing. -/
def demoEnvNoMatch : Env Nat String Nat :=
  { demoEnv with matchStorageToRange := fun _ _ _ => [] }

/-- An environment whose native routine fails with the generic code. -/
def demoEnvNativeError : Env Nat String Nat :=
  { demoEnv with video_store_concat := fun _ _ fs => (fs, 1) }

/-- An environment whose native routine fails with the diagnostic code 42. -/
def demoEnvNativeDiagnostic : Env Nat String Nat :=
  { demoEnv with video_store_concat := fun _ _ fs => (fs, 42) }

/-- An environment in which every `os.Remove` is refused. -/
def demoEnvRemoveFails : Env Nat String Nat :=
  { demoEnv with removeErr := fun _ => some "permission denied" }

/-! ## The definitions on concrete inputs -/

/-- `filepath.Join` and `filepath.Clean` on a few paths, as Go computes them. -/
theorem Join_Clean_samples :
    Join "/tmp" "concat_ab.txt" = "/tmp/concat_ab.txt" ∧
    Join "/tmp//x/../" "concat_ab.txt" = "/tmp/concat_ab.txt" ∧
    Join "/" "concat_ab.txt" = "/concat_ab.txt" ∧
    Join "" "concat_ab.txt" = "concat_ab.txt" ∧
    Join "." "concat_ab.txt" = "concat_ab.txt" ∧
    Join "../a" "../concat_ab.txt" = "../concat_ab.txt" ∧
    Join "/.." "concat_ab.txt" = "/concat_ab.txt" ∧
    Clean "" = "." ∧
    Clean "a/.." = "." ∧
    Clean "/a/../.." = "/" ∧
    Clean "../../a/b/.." = "../../a" ∧
    dirPrefix "/tmp//x/../" = "/tmp/" := by
  decide

/-- The plan path and the sweep pattern of the demo store. -/
theorem demoPlanPath_eq :
    generateConcatFilePath demoEnv.concatTxtDir demoEnv.newUUID = demoPlanPath ∧
    isUUIDString demoEnv.newUUID = true ∧
    sweepPattern demoEnv.concatTxtDir = "/tmp/concat_*.txt" ∧
    globMatches "/tmp/concat_*.txt" demoPlanPath = true ∧
    globMatches "/tmp/concat_*.txt" "/tmp/concat_.txt" = true ∧
    globMatches "/tmp/concat_*.txt" "/tmp/concat_a/b.txt" = false ∧
    globMatches "/tmp/concat_*.txt" "/tmp/concat_a.txt.bak" = false ∧
    globMatches "/tmp/concat_*.txt" "/tmp/notes.txt" = false ∧
    globMatches "/tmp/concat_*.txt" "/var/tmp/concat_a.txt" = false := by
  decide

/-- A successful call at the demo store, event by event. -/
theorem Concat_demo_run :
    Concat demoEnv demoConcater 5 65 "/out.mp4" demoRun =
      ({ fs := [("/out.mp4", "video"), ("/data/a.mp4", "A")]
         events :=
          [Event.getSortedFiles "/data", Event.validateTimeRange, Event.matchStorageToRange,
            Event.generateConcatFilePath demoPlanPath,
            Event.osCreate demoPlanPath true,
            Event.writeString demoPlanPath "file a.mp4\n" true,
            Event.writeString demoPlanPath "inpoint 5\n" true,
            Event.writeString demoPlanPath "file b.mp4\n" true,
            Event.writeString demoPlanPath "inpoint 5\n" true,
            Event.fileClose demoPlanPath,
            Event.video_store_concat demoPlanPath "/out.mp4" 0,
            Event.osStat demoPlanPath true,
            Event.osRemove demoPlanPath true] }, none) := by
  decide

/-! ## Facts about paths -/

theorem splitSep_ne_nil (p : List Char) : splitSep p ≠ [] := by
  cases p with
  | nil => simp [splitSep]
  | cons c cs =>
    unfold splitSep
    split
    · simp
    · split <;> simp

theorem splitSep_append_sep (d n : List Char) :
    splitSep (d ++ Separator :: n) = splitSep d ++ splitSep n := by
  induction d with
  | nil => simp [splitSep]
  | cons c cs ih =>
    by_cases hc : c = Separator
    · simp [splitSep, hc, ih]
    · have hne := splitSep_ne_nil cs
      cases hs : splitSep cs with
      | nil => exact absurd hs hne
      | cons h t => simp [splitSep, hc, ih, hs]

theorem splitSep_of_not_mem (n : List Char) (h : Separator ∉ n) : splitSep n = [n] := by
  induction n with
  | nil => simp [splitSep]
  | cons c cs ih =>
    have hc : c ≠ Separator := fun e => h (by simp [e])
    have hcs : Separator ∉ cs := fun e => h (by simp [e])
    simp [splitSep, hc, ih hcs]

theorem cleanStep_fileName (rooted : Bool) (stack : List (List Char)) (n : List Char)
    (h : IsFileName n) : cleanStep rooted stack n = n :: stack := by
  obtain ⟨h1, h2, h3, _⟩ := h
  simp [cleanStep, h1, h2, h3]

theorem joinSep_append_singleton (xs : List (List Char)) (n : List Char) :
    joinSep (xs ++ [n]) = if xs = [] then n else joinSep xs ++ Separator :: n := by
  induction xs with
  | nil => simp [joinSep]
  | cons x rest ih =>
    cases rest with
    | nil => simp [joinSep]
    | cons y ys =>
      simp only [List.cons_append, joinSep, reduceCtorEq, if_false] at ih ⊢
      simp [ih]

theorem cleanChars_fileName (n : List Char) (h : IsFileName n) : cleanChars n = n := by
  obtain ⟨h1, h2, h3, h4⟩ := h
  cases n with
  | nil => exact absurd rfl h1
  | cons c cs =>
    have hc : c ≠ Separator := fun e => h4 (by simp [e])
    have hs := splitSep_of_not_mem (c :: cs) h4
    simp [cleanChars, hs, hc, cleanStep, h2, h3, joinSep]

theorem cleanChars_dir_fileName (d n : List Char) (hd : d ≠ []) (h : IsFileName n) :
    cleanChars (d ++ Separator :: n) = dirPrefixChars d ++ n := by
  cases d with
  | nil => exact absurd rfl hd
  | cons c cs =>
    have hs : splitSep (c :: cs ++ Separator :: n) = splitSep (c :: cs) ++ [n] := by
      rw [splitSep_append_sep, splitSep_of_not_mem n h.2.2.2]
    have hn : n ≠ [] := h.1
    simp only [cleanChars, dirPrefixChars, List.cons_append] at hs ⊢
    rw [hs, List.foldl_append]
    simp only [List.foldl_cons, List.foldl_nil, cleanStep_fileName _ _ n h,
      List.reverse_cons, joinSep_append_singleton]
    by_cases hr : c = Separator <;>
      by_cases hst : List.foldl (cleanStep (decide (c = Separator))) [] (splitSep (c :: cs)) = [] <;>
      simp [hr, hst, hn] <;> simp_all

theorem Sprintf_pattern (u : String) :
    Sprintf conactTxtFilePattern u = "concat_" ++ u ++ ".txt" := by
  apply String.ext
  simp [Sprintf, conactTxtFilePattern, sprintfChars]

theorem uuidCharsFrom_not_mem (i : Nat) (cs : List Char) (h : uuidCharsFrom i cs = true) :
    Separator ∉ cs := by
  induction cs generalizing i with
  | nil => simp
  | cons c cs ih =>
    simp only [uuidCharsFrom, Bool.and_eq_true] at h
    intro hm
    rcases List.mem_cons.mp hm with e | e
    · subst e
      have hd : decide (Separator = '-') = false := by decide
      have hx : isHexDigit Separator = false := by decide
      have := h.1
      split at this <;> simp_all
    · exact ih (i + 1) h.2 e

theorem isUUIDString_not_mem (u : String) (h : isUUIDString u = true) : Separator ∉ u.data := by
  simp only [isUUIDString, Bool.and_eq_true] at h
  exact uuidCharsFrom_not_mem 0 u.data h.2

theorem planName_data (u : String) :
    ("concat_" ++ u ++ ".txt").data
      = 'c' :: 'o' :: 'n' :: 'c' :: 'a' :: 't' :: '_' :: (u.data ++ ['.', 't', 'x', 't']) := by
  simp

theorem planName_isFileName (u : String) (h : Separator ∉ u.data) :
    IsFileName ("concat_" ++ u ++ ".txt").data := by
  rw [planName_data]
  refine ⟨by simp, by simp, by simp, ?_⟩
  have : Separator ∉ ['.', 't', 'x', 't'] := by decide
  simp only [List.mem_cons, List.mem_append, not_or]
  refine ⟨by decide, by decide, by decide, by decide, by decide, by decide, by decide, h, ?_⟩
  simpa using this

theorem Join_fileName (dir n : String) (h : IsFileName n.data) :
    Join dir n = dirPrefix dir ++ n := by
  have hn : n ≠ "" := by
    intro e
    exact h.1 (by simp [e])
  apply String.ext
  by_cases hd : dir = ""
  · simp [Join, hd, hn, Clean, cleanChars_fileName _ h, dirPrefix, dirPrefixChars]
  · have hdd : dir.data ≠ [] := by
      intro e
      exact hd (String.ext (by simpa using e))
    simp only [Join, hd, hn, if_false, Clean, String.data_append, dirPrefix]
    have := cleanChars_dir_fileName dir.data n.data hdd h
    simpa [Separator] using this

theorem splitChars_of_not_mem (n : List Char) (h : Separator ∉ n) : splitChars n = ([], n) := by
  induction n with
  | nil => simp [splitChars]
  | cons c cs ih =>
    have hc : c ≠ Separator := fun e => h (by simp [e])
    have hcs : Separator ∉ cs := fun e => h (by simp [e])
    simp [splitChars, ih hcs, hc]

theorem splitChars_append_sep (d n : List Char) (h : Separator ∉ n) :
    splitChars (d ++ Separator :: n) = (d ++ [Separator], n) := by
  induction d with
  | nil => simp [splitChars, splitChars_of_not_mem n h]
  | cons c cs ih =>
    cases hcs : cs ++ [Separator] with
    | nil => simp at hcs
    | cons x xs =>
      have ih2 : splitChars (cs ++ Separator :: n) = (x :: xs, n) := by rw [ih, hcs]
      show splitChars (c :: (cs ++ Separator :: n)) = (c :: (cs ++ [Separator]), n)
      rw [splitChars, ih2, hcs]

theorem dirPrefixChars_shape (d : List Char) :
    dirPrefixChars d = [] ∨ ∃ q, dirPrefixChars d = q ++ [Separator] := by
  cases d with
  | nil => left; rfl
  | cons c cs =>
    simp only [dirPrefixChars]
    by_cases hst : List.foldl (cleanStep (decide (c = Separator))) [] (splitSep (c :: cs)) = []
    · rw [if_pos hst]
      by_cases hr : c = Separator
      · right; exact ⟨[], by simp [hr]⟩
      · left; simp [hr]
    · right
      refine ⟨(if decide (c = Separator) = true then [Separator] else []) ++
        joinSep (List.foldl (cleanStep (decide (c = Separator))) [] (splitSep (c :: cs))).reverse, ?_⟩
      simp [hst]

theorem splitChars_dirPrefix (d n : List Char) (h : Separator ∉ n) :
    splitChars (dirPrefixChars d ++ n) = (dirPrefixChars d, n) := by
  rcases dirPrefixChars_shape d with e | ⟨q, e⟩
  · simp [e, splitChars_of_not_mem n h]
  · rw [e, List.append_assoc, List.singleton_append, splitChars_append_sep q n h]

theorem generateConcatFilePath_eq (dir u : String) (h : Separator ∉ u.data) :
    generateConcatFilePath dir u = dirPrefix dir ++ ("concat_" ++ u ++ ".txt") := by
  simp only [generateConcatFilePath, Sprintf_pattern]
  exact Join_fileName dir _ (planName_isFileName u h)

theorem generateConcatFilePath_injective (dir u1 u2 : String) (h1 : Separator ∉ u1.data)
    (h2 : Separator ∉ u2.data)
    (h : generateConcatFilePath dir u1 = generateConcatFilePath dir u2) : u1 = u2 := by
  rw [generateConcatFilePath_eq dir u1 h1, generateConcatFilePath_eq dir u2 h2] at h
  have hd := congrArg String.data h
  simp only [String.data_append] at hd
  have h3 := List.append_cancel_left hd
  have h4 := List.append_cancel_right h3
  have h5 := List.append_cancel_left h4
  exact String.ext h5

/-- C10. Seen as a function of the identifier `u` that `uuid.New().String()`
returned, `generateConcatFilePath` yields the path of the file named
`"concat_" + u + ".txt"` in the transient directory (it is what `filepath.Join`
makes of the directory and that name, and `filepath.Split` finds that name back
as its last element); two distinct UUID strings give two distinct paths. -/
theorem generateConcatFilePath_collision_free (dir u1 u2 : String)
    (h1 : isUUIDString u1 = true) (h2 : isUUIDString u2 = true) :
    generateConcatFilePath dir u1 = Join dir ("concat_" ++ u1 ++ ".txt") ∧
    (splitChars (generateConcatFilePath dir u1).data).2 = ("concat_" ++ u1 ++ ".txt").data ∧
    (u1 ≠ u2 → generateConcatFilePath dir u1 ≠ generateConcatFilePath dir u2) := by
  have n1 := isUUIDString_not_mem u1 h1
  have n2 := isUUIDString_not_mem u2 h2
  refine ⟨?_, ?_, ?_⟩
  · simp only [generateConcatFilePath, Sprintf_pattern]
  · rw [generateConcatFilePath_eq dir u1 n1]
    simp only [String.data_append, dirPrefix]
    have := splitChars_dirPrefix dir.data ("concat_".data ++ u1.data ++ ".txt".data)
      (by simpa using (planName_isFileName u1 n1).2.2.2)
    rw [this]
  · intro hne heq
    exact hne (generateConcatFilePath_injective dir u1 u2 n1 n2 heq)

/-- Witness of C10 at the directory `/tmp` and two UUID strings. -/
theorem generateConcatFilePath_collision_free_witness :
    generateConcatFilePath "/tmp" "123e4567-e89b-12d3-a456-426614174000"
        = Join "/tmp" ("concat_" ++ "123e4567-e89b-12d3-a456-426614174000" ++ ".txt") ∧
    (splitChars (generateConcatFilePath "/tmp" "123e4567-e89b-12d3-a456-426614174000").data).2
        = ("concat_" ++ "123e4567-e89b-12d3-a456-426614174000" ++ ".txt").data ∧
    ("123e4567-e89b-12d3-a456-426614174000" ≠ "123e4567-e89b-12d3-a456-426614174001" →
      generateConcatFilePath "/tmp" "123e4567-e89b-12d3-a456-426614174000"
        ≠ generateConcatFilePath "/tmp" "123e4567-e89b-12d3-a456-426614174001") :=
  generateConcatFilePath_collision_free "/tmp" "123e4567-e89b-12d3-a456-426614174000"
    "123e4567-e89b-12d3-a456-426614174001" (by decide) (by decide)

/-! ## Facts about the file system -/

theorem FS.append_append (fs : FS) (p a b : String) :
    (fs.append p a).append p b = fs.append p (a ++ b) := by
  induction fs with
  | nil => rfl
  | cons f rest ih =>
    simp only [FS.append, List.map_cons, List.map_map] at ih ⊢
    refine congrArg₂ _ ?_ ih
    by_cases h : (f.1 == p) = true
    · simp [h, String.append_assoc]
    · simp [h]

theorem FS.append_remove (fs : FS) (p s : String) : (fs.remove p).append p s = fs.remove p := by
  induction fs with
  | nil => rfl
  | cons f rest ih =>
    by_cases h : f.1 = p
    · have hb : (f.1 != p) = false := by simp [h]
      have : FS.remove (f :: rest) p = FS.remove rest p := by
        simp only [FS.remove, List.filter_cons, hb]; rfl
      rw [this, ih]
    · have hb : (f.1 != p) = true := by simp [h]
      have hc : (f.1 == p) = false := by simp [h]
      have : FS.remove (f :: rest) p = f :: FS.remove rest p := by
        simp only [FS.remove, List.filter_cons, hb]; rfl
      rw [this]
      show (if (f.1 == p) = true then (f.1, f.2 ++ s) else f) :: FS.append (FS.remove rest p) p s = _
      rw [ih, hc]
      rfl

theorem FS.create_append (fs : FS) (p a b : String) :
    (fs.create p a).append p b = fs.create p (a ++ b) := by
  have h := FS.append_remove fs p b
  show (if ((p, a).1 == p) = true then ((p, a).1, (p, a).2 ++ b) else (p, a)) ::
      FS.append (FS.remove fs p) p b = _
  rw [h]
  simp [FS.create]

theorem FS.content_create (fs : FS) (p s : String) : (fs.create p s).content p = some s := by
  simp [FS.create, FS.content]

theorem FS.content_cons (f : String × String) (rest : FS) (q : String) :
    FS.content (f :: rest) q = if f.1 = q then some f.2 else FS.content rest q := by
  by_cases h : f.1 = q
  · simp [FS.content, List.find?_cons, h]
  · have hc : (f.1 == q) = false := by simp [h]
    simp only [FS.content, List.find?_cons, hc, h, if_false]

theorem FS.content_remove_of_ne (fs : FS) (p q : String) (h : q ≠ p) :
    (fs.remove p).content q = fs.content q := by
  induction fs with
  | nil => rfl
  | cons f rest ih =>
    by_cases hf : f.1 = p
    · have hb : (f.1 != p) = false := by simp [hf]
      have : FS.remove (f :: rest) p = FS.remove rest p := by
        simp only [FS.remove, List.filter_cons, hb]; rfl
      have hq : ¬ f.1 = q := fun e => h (e.symm.trans hf)
      rw [this, ih, FS.content_cons, if_neg hq]
    · have hb : (f.1 != p) = true := by simp [hf]
      have : FS.remove (f :: rest) p = f :: FS.remove rest p := by
        simp only [FS.remove, List.filter_cons, hb]; rfl
      rw [this, FS.content_cons, FS.content_cons, ih]

theorem FS.content_create_of_ne (fs : FS) (p q s : String) (h : q ≠ p) :
    (fs.create p s).content q = fs.content q := by
  have hp : ¬ p = q := fun e => h e.symm
  rw [FS.create, FS.content_cons, if_neg hp, FS.content_remove_of_ne fs p q h]

theorem FS.fileExists_remove (fs : FS) (p : String) : (fs.remove p).fileExists p = false := by
  simp [FS.fileExists, FS.remove]

theorem FS.fileExists_create (fs : FS) (p s : String) : (fs.create p s).fileExists p = true := by
  simp [FS.fileExists, FS.create]

theorem FS.fileExists_append (fs : FS) (p s q : String) :
    (fs.append p s).fileExists q = fs.fileExists q := by
  induction fs with
  | nil => rfl
  | cons f rest ih =>
    simp only [FS.fileExists, FS.append, List.map_cons, List.any_cons] at ih ⊢
    rw [ih]
    by_cases h : (f.1 == p) = true <;> simp [h]

/-! ## Writing the plan -/

section WritingFacts

variable {Segment Entry Time : Type}

theorem writeLines_append (env : Env Segment Entry Time) (p : String) (l1 l2 : List String)
    (st : Run × Nat) :
    writeLines env p (l1 ++ l2) st =
      match writeLines env p l1 st with
      | (st1, some err) => (st1, some err)
      | (st1, none) => writeLines env p l2 st1 := by
  induction l1 generalizing st with
  | nil => simp [writeLines]
  | cons line rest ih =>
    obtain ⟨r, k⟩ := st
    simp only [List.cons_append, writeLines]
    cases h : env.writeErr k with
    | none => exact ih _
    | some ne => rfl

theorem writeEntries_eq_writeLines (env : Env Segment Entry Time) (p : String)
    (entries : List Entry) (st : Run × Nat) :
    writeEntries env p entries st = writeLines env p (planLines env entries) st := by
  induction entries generalizing st with
  | nil => simp [writeEntries, planLines, writeLines]
  | cons entry rest ih =>
    simp only [planLines, List.map_cons, List.flatten_cons, writeEntries, writeLines_append] at ih ⊢
    rcases h : writeLines env p (env.entryString entry) st with ⟨st1, _ | err⟩
    · simp only [ih]
    · rfl

theorem writeLines_ok (env : Env Segment Entry Time) (p : String) (lines : List String)
    (r : Run) (k : Nat) (h : ∀ j, j < lines.length → env.writeErr (k + j) = none) :
    writeLines env p lines (r, k) =
      (({ fs := r.fs.append p (concatLines lines),
          events := r.events ++ writeEvents p lines }, k + lines.length), none) := by
  induction lines generalizing r k with
  | nil =>
    have : r.fs.append p "" = r.fs := by
      simp [FS.append]
    simp [writeLines, concatLines, writeEvents, this]
  | cons line rest ih =>
    have h0 : env.writeErr k = none := by simpa using h 0 (by simp)
    have hrest : ∀ j, j < rest.length → env.writeErr (k + 1 + j) = none := by
      intro j hj
      have := h (j + 1) (by simp; omega)
      rwa [show k + (j + 1) = k + 1 + j by omega] at this
    simp only [writeLines, h0]
    rw [ih _ _ hrest]
    simp [FS.append_append, concatLines, writeEvents, Nat.add_assoc, Nat.add_comm 1]

theorem writeLines_fail (env : Env Segment Entry Time) (p : String)
    (pre : List String) (line : String) (post : List String) (r : Run) (k n : Nat) (e : Error)
    (hpre : ∀ j, j < pre.length → env.writeErr (k + j) = none)
    (hfail : env.writeErr (k + pre.length) = some (n, e)) :
    writeLines env p (pre ++ line :: post) (r, k) =
      (({ fs := r.fs.append p (concatLines pre ++ ⟨(line ++ "\n").data.take n⟩),
          events := r.events ++ writeEvents p pre ++
            [Event.writeString p (line ++ "\n") false] }, k + pre.length + 1), some e) := by
  rw [writeLines_append, writeLines_ok env p pre r k hpre]
  simp only [writeLines, hfail, FS.append_append]

end WritingFacts

/-- C9. `writeConcatFileEntries` serialises the plan: when the creation and
every write succeed it returns nil and the file holds, in entry order, every
line of every entry's `string()` output followed by one line feed (nothing for
no entries), other files being left alone; when the creation fails it returns
that error and writes nothing; when a write fails it returns that error and no
further write is attempted. -/
theorem writeConcatFileEntries_serializes {Segment Entry Time : Type}
    (env : Env Segment Entry Time) (entries : List Entry) (filePath : String) (r : Run) :
    (env.createErr filePath = none →
      (∀ k, k < (planLines env entries).length → env.writeErr k = none) →
      (writeConcatFileEntries env entries filePath r).2 = none ∧
      (writeConcatFileEntries env entries filePath r).1.fs.content filePath
        = some (concatLines (planLines env entries)) ∧
      (∀ q, q ≠ filePath →
        (writeConcatFileEntries env entries filePath r).1.fs.content q = r.fs.content q) ∧
      (writeConcatFileEntries env entries filePath r).1.events
        = r.events ++ [Event.osCreate filePath true] ++ writeEvents filePath (planLines env entries)
            ++ [Event.fileClose filePath]) ∧
    (∀ e, env.createErr filePath = some e →
      (writeConcatFileEntries env entries filePath r).2 = some e ∧
      (writeConcatFileEntries env entries filePath r).1.fs = r.fs ∧
      (writeConcatFileEntries env entries filePath r).1.events
        = r.events ++ [Event.osCreate filePath false]) ∧
    (∀ pre line post n e, env.createErr filePath = none →
      planLines env entries = pre ++ line :: post →
      (∀ j, j < pre.length → env.writeErr j = none) →
      env.writeErr pre.length = some (n, e) →
      (writeConcatFileEntries env entries filePath r).2 = some e ∧
      (writeConcatFileEntries env entries filePath r).1.fs.content filePath
        = some (concatLines pre ++ ⟨(line ++ "\n").data.take n⟩) ∧
      (writeConcatFileEntries env entries filePath r).1.events
        = r.events ++ [Event.osCreate filePath true] ++ writeEvents filePath pre
            ++ [Event.writeString filePath (line ++ "\n") false, Event.fileClose filePath]) := by
  refine ⟨?_, ?_, ?_⟩
  · intro hc hw
    have hw2 : ∀ j, j < (planLines env entries).length → env.writeErr (0 + j) = none := by
      intro j hj
      simpa using hw j hj
    simp only [writeConcatFileEntries, hc, writeEntries_eq_writeLines,
      writeLines_ok env filePath _ _ 0 hw2, Run.emit, FS.create_append, String.empty_append]
    refine ⟨trivial, FS.content_create _ _ _, ?_, by simp⟩
    intro q hq
    exact FS.content_create_of_ne _ _ _ _ hq
  · intro e hc
    simp [writeConcatFileEntries, hc, Run.emit]
  · intro pre line post n e hc hl hpre hfail
    have hpre2 : ∀ j, j < pre.length → env.writeErr (0 + j) = none := by
      intro j hj
      simpa using hpre j hj
    have hfail2 : env.writeErr (0 + pre.length) = some (n, e) := by simpa using hfail
    simp only [writeConcatFileEntries, hc, writeEntries_eq_writeLines, hl,
      writeLines_fail env filePath pre line post _ 0 n e hpre2 hfail2, Run.emit,
      FS.create_append, String.empty_append]
    exact ⟨trivial, FS.content_create _ _ _, by simp⟩

/-- Witness of C9: the three cases at the demo store. -/
theorem writeConcatFileEntries_serializes_witness :
    ((writeConcatFileEntries demoEnv ["a.mp4", "b.mp4"] demoPlanPath demoRun).2 = none ∧
      (writeConcatFileEntries demoEnv ["a.mp4", "b.mp4"] demoPlanPath demoRun).1.fs.content
          demoPlanPath
        = some (concatLines (planLines demoEnv ["a.mp4", "b.mp4"])) ∧
      concatLines (planLines demoEnv ["a.mp4", "b.mp4"])
        = "file a.mp4\ninpoint 5\nfile b.mp4\ninpoint 5\n") ∧
    ((writeConcatFileEntries demoEnvCreateFails ["a.mp4", "b.mp4"] demoPlanPath demoRun).2
        = some "permission denied" ∧
      (writeConcatFileEntries demoEnvCreateFails ["a.mp4", "b.mp4"] demoPlanPath demoRun).1.fs
        = demoRun.fs) ∧
    ((writeConcatFileEntries demoEnvWriteFails ["a.mp4", "b.mp4"] demoPlanPath demoRun).2
        = some "no space left on device" ∧
      (writeConcatFileEntries demoEnvWriteFails ["a.mp4", "b.mp4"] demoPlanPath demoRun).1.fs.content
          demoPlanPath
        = some "file a.mp4\ninpoint 5\nfile") :=
  ⟨⟨((writeConcatFileEntries_serializes demoEnv ["a.mp4", "b.mp4"] demoPlanPath demoRun).1
        rfl (fun _ _ => rfl)).1,
    ((writeConcatFileEntries_serializes demoEnv ["a.mp4", "b.mp4"] demoPlanPath demoRun).1
        rfl (fun _ _ => rfl)).2.1, by decide⟩,
   ⟨((writeConcatFileEntries_serializes demoEnvCreateFails ["a.mp4", "b.mp4"] demoPlanPath
        demoRun).2.1 "permission denied" rfl).1,
    ((writeConcatFileEntries_serializes demoEnvCreateFails ["a.mp4", "b.mp4"] demoPlanPath
        demoRun).2.1 "permission denied" rfl).2.1⟩,
   ⟨((writeConcatFileEntries_serializes demoEnvWriteFails ["a.mp4", "b.mp4"] demoPlanPath
        demoRun).2.2 ["file a.mp4", "inpoint 5"] "file b.mp4" ["inpoint 5"] 4
        "no space left on device" rfl (by decide) (by decide) (by decide)).1,
    by decide⟩⟩

/-! ## Matching names against the plan pattern -/

theorem stripLeading_eq_some (pre p n : List Char) :
    stripLeading pre p = some n ↔ p = pre ++ n := by
  induction pre generalizing p with
  | nil => simp [stripLeading, eq_comm]
  | cons a as ih =>
    cases p with
    | nil => simp [stripLeading]
    | cons b bs =>
      by_cases h : a = b
      · simp [stripLeading, h, ih]
      · simp only [stripLeading, h, if_false, List.cons_append, List.cons.injEq, false_iff,
          not_and, reduceCtorEq]
        intro e
        exact absurd e.symm h

theorem matchStarRest_iff (k : List Char → Bool) (s : List Char) :
    matchStarRest k s = true ↔ ∃ a b, s = a ++ b ∧ Separator ∉ a ∧ k b = true := by
  induction s with
  | nil =>
    simp only [matchStarRest]
    constructor
    · intro h; exact ⟨[], [], rfl, by simp, h⟩
    · rintro ⟨a, b, hab, _, hk⟩
      have : b = [] := by
        have := congrArg List.length hab
        simp at this
        exact List.length_eq_zero.mp (by omega)
      rwa [this] at hk
  | cons c cs ih =>
    simp only [matchStarRest, Bool.or_eq_true, Bool.and_eq_true, ih]
    constructor
    · rintro (h | ⟨hc, a, b, hab, ha, hk⟩)
      · exact ⟨[], c :: cs, rfl, by simp, h⟩
      · refine ⟨c :: a, b, by simp [hab], ?_, hk⟩
        have : c ≠ Separator := by simpa using hc
        simp only [List.mem_cons, not_or]
        exact ⟨fun e => this e.symm, ha⟩
    · rintro ⟨a, b, hab, ha, hk⟩
      cases a with
      | nil =>
        left
        simp only [List.nil_append] at hab
        rwa [hab]
      | cons x xs =>
        right
        simp only [List.cons_append, List.cons.injEq] at hab
        obtain ⟨hx, hrest⟩ := hab
        simp only [List.mem_cons, not_or] at ha
        refine ⟨?_, xs, b, hrest, ha.2, hk⟩
        have : c ≠ Separator := by
          rw [hx]; exact fun e => ha.1 e.symm
        simpa using this

theorem matchChars_suffix (s : List Char) :
    matchChars ['.', 't', 'x', 't'] s = true ↔ s = ['.', 't', 'x', 't'] := by
  constructor
  · intro h
    match s, h with
    | [c1, c2, c3, c4], h =>
      simp [matchChars] at h
      obtain ⟨h1, h2, h3, h4⟩ := h
      rw [← h1, ← h2, ← h3, ← h4]
    | [], h => simp [matchChars] at h
    | [_], h => simp [matchChars] at h
    | [_, _], h => simp [matchChars] at h
    | [_, _, _], h => simp [matchChars] at h
    | _ :: _ :: _ :: _ :: _ :: _, h => simp [matchChars] at h
  · intro h
    subst h
    decide

theorem matchChars_planPattern (name : List Char) :
    matchChars "concat_*.txt".data name = true ↔
      ∃ mid, Separator ∉ mid ∧ name = "concat_".data ++ mid ++ ".txt".data := by
  have hp : "concat_*.txt".data = ['c', 'o', 'n', 'c', 'a', 't', '_', '*', '.', 't', 'x', 't'] := rfl
  have hq : "concat_".data = ['c', 'o', 'n', 'c', 'a', 't', '_'] := rfl
  have hs : ".txt".data = ['.', 't', 'x', 't'] := rfl
  rw [hp, hq, hs]
  constructor
  · intro h
    match name, h with
    | c1 :: c2 :: c3 :: c4 :: c5 :: c6 :: c7 :: rest, h =>
      have hstar : ('*' : Char) = '*' := rfl
      simp only [matchChars, Bool.and_eq_true, beq_iff_eq] at h
      simp only [show ¬ ('c' : Char) = '*' by decide, show ¬ ('o' : Char) = '*' by decide,
        show ¬ ('n' : Char) = '*' by decide, show ¬ ('a' : Char) = '*' by decide,
        show ¬ ('t' : Char) = '*' by decide, show ¬ ('_' : Char) = '*' by decide,
        if_false, if_true, Bool.and_eq_true, beq_iff_eq] at h
      obtain ⟨h1, h2, h3, h4, h5, h6, h7, h8⟩ := h
      have h9 : matchStarRest (matchChars ['.', 't', 'x', 't']) rest = true := h8
      obtain ⟨a, b, hab, ha, hb⟩ := (matchStarRest_iff _ _).mp h9
      have hb2 := (matchChars_suffix b).mp hb
      refine ⟨a, ha, ?_⟩
      simp [← h1, ← h2, ← h3, ← h4, ← h5, ← h6, ← h7, hab, hb2]
    | [], h => simp [matchChars] at h
    | [_], h => simp [matchChars] at h
    | [_, _], h => simp [matchChars] at h
    | [_, _, _], h => simp [matchChars] at h
    | [_, _, _, _], h => simp [matchChars] at h
    | [_, _, _, _, _], h => simp [matchChars] at h
    | [_, _, _, _, _, _], h => simp [matchChars] at h
  · rintro ⟨mid, hmid, rfl⟩
    have : matchStarRest (matchChars ['.', 't', 'x', 't']) (mid ++ ['.', 't', 'x', 't']) = true :=
      (matchStarRest_iff _ _).mpr ⟨mid, _, rfl, hmid, by decide⟩
    simpa [matchChars] using this

theorem sweepPattern_eq (dir : String) :
    sweepPattern dir = dirPrefix dir ++ "concat_*.txt" := by
  have h : IsFileName ("concat_" ++ "*" ++ ".txt" : String).data :=
    planName_isFileName "*" (by decide)
  simp only [sweepPattern, Sprintf_pattern]
  exact Join_fileName dir _ h

theorem splitChars_sweepPattern (dir : String) :
    splitChars (sweepPattern dir).data = ((dirPrefix dir).data, "concat_*.txt".data) := by
  rw [sweepPattern_eq, String.data_append]
  exact splitChars_dirPrefix dir.data "concat_*.txt".data (by decide)

theorem not_mem_planName (mid : List Char) (h : Separator ∉ mid) :
    Separator ∉ "concat_".data ++ mid ++ ".txt".data := by
  have h1 : Separator ∉ "concat_".data := by decide
  have h2 : Separator ∉ ".txt".data := by decide
  simp only [List.mem_append, not_or]
  exact ⟨⟨h1, h⟩, h2⟩

theorem globMatches_sweepPattern (dir p : String) :
    globMatches (sweepPattern dir) p = true ↔ IsPlanFilePath dir p := by
  simp only [globMatches, splitChars_sweepPattern, IsPlanFilePath]
  constructor
  · intro h
    cases hs : stripLeading (dirPrefix dir).data p.data with
    | none => simp [hs] at h
    | some name =>
      simp only [hs, Bool.and_eq_true] at h
      obtain ⟨mid, hmid, hname⟩ := (matchChars_planPattern name).mp h.2
      refine ⟨mid, hmid, ?_⟩
      rw [(stripLeading_eq_some _ _ _).mp hs, hname]
  · rintro ⟨mid, hmid, hp⟩
    have hs := (stripLeading_eq_some (dirPrefix dir).data p.data _).mpr hp
    have hne : ("concat_".data ++ mid ++ ".txt".data).isEmpty = false := by
      have : "concat_".data = 'c' :: "oncat_".data := rfl
      simp [this]
    have hsep : ("concat_".data ++ mid ++ ".txt".data).contains Separator = false := by
      have := not_mem_planName mid hmid
      simpa using this
    have hm := (matchChars_planPattern ("concat_".data ++ mid ++ ".txt".data)).mpr ⟨mid, hmid, rfl⟩
    simp only [hs, hne, hsep, hm]
    rfl

theorem isPlanFilePath_generate (dir u : String) (h : Separator ∉ u.data) :
    IsPlanFilePath dir (generateConcatFilePath dir u) := by
  refine ⟨u.data, h, ?_⟩
  rw [generateConcatFilePath_eq dir u h]
  simp

/-! ## The sweep -/

section SweepFacts

variable {Segment Entry Time : Type}

theorem FS.remove_of_not_exists (fs : FS) (p : String) (h : fs.fileExists p = false) :
    fs.remove p = fs := by
  simp only [FS.fileExists, List.any_eq_false, beq_iff_eq] at h
  simp only [FS.remove, List.filter_eq_self, bne_iff_ne]
  exact fun f hf => h f hf

theorem FS.mem_remove (fs : FS) (p : String) (f : String × String) :
    f ∈ fs.remove p ↔ f ∈ fs ∧ f.1 ≠ p := by
  simp [FS.remove, List.mem_filter]

theorem osRemove_fs_subset (env : Env Segment Entry Time) (p : String) (r : Run)
    (f : String × String) (h : f ∈ (osRemove env p r).1.fs) : f ∈ r.fs := by
  unfold osRemove at h
  split at h
  · split at h
    · exact h
    · exact ((FS.mem_remove _ _ _).mp h).1
  · exact h

theorem osRemove_fs_keeps (env : Env Segment Entry Time) (p : String) (r : Run)
    (f : String × String) (h : f ∈ r.fs) (hp : f.1 ≠ p) : f ∈ (osRemove env p r).1.fs := by
  unfold osRemove
  split
  · split
    · exact h
    · exact (FS.mem_remove _ _ _).mpr ⟨h, hp⟩
  · exact h

theorem osRemove_fs_of_ok (env : Env Segment Entry Time) (p : String) (r : Run)
    (h : env.removeErr p = none) : (osRemove env p r).1.fs = r.fs.remove p := by
  unfold osRemove
  split
  · simp [h]
  · rename_i hex
    simp only [Run.emit]
    exact (FS.remove_of_not_exists _ _ (by simpa using hex)).symm

theorem osRemove_events (env : Env Segment Entry Time) (p : String) (r : Run) :
    ∃ ok, (osRemove env p r).1.events = r.events ++ [Event.osRemove p ok] := by
  unfold osRemove
  split
  · split
    · exact ⟨false, rfl⟩
    · exact ⟨true, rfl⟩
  · exact ⟨false, rfl⟩

end SweepFacts

section SweepLoop

variable {Segment Entry Time : Type}

theorem FS.fileExists_remove_of_ne (fs : FS) (p q : String) (h : q ≠ p) :
    (fs.remove p).fileExists q = fs.fileExists q := by
  induction fs with
  | nil => rfl
  | cons f rest ih =>
    by_cases hf : f.1 = p
    · have hb : (f.1 != p) = false := by simp [hf]
      have hr : FS.remove (f :: rest) p = FS.remove rest p := by
        simp only [FS.remove, List.filter_cons, hb]; rfl
      have hq : (f.1 == q) = false := by
        have : ¬ f.1 = q := fun e => h (e.symm.trans hf)
        simp [this]
      rw [hr, ih]
      simp only [FS.fileExists, List.any_cons, hq, Bool.false_or]
    · have hb : (f.1 != p) = true := by simp [hf]
      have hr : FS.remove (f :: rest) p = f :: FS.remove rest p := by
        simp only [FS.remove, List.filter_cons, hb]; rfl
      rw [hr]
      simp only [FS.fileExists, List.any_cons] at ih ⊢
      rw [ih]

theorem FS.mem_foldl_remove (files : List String) (fs : FS) (f : String × String) :
    f ∈ files.foldl FS.remove fs ↔ f ∈ fs ∧ f.1 ∉ files := by
  induction files generalizing fs with
  | nil => simp
  | cons p rest ih =>
    simp only [List.foldl_cons, ih, FS.mem_remove, List.mem_cons, not_or]
    tauto

theorem removeFiles_fs_subset (env : Env Segment Entry Time) (logger : Logger)
    (files : List String) (r : Run)
    (f : String × String) (h : f ∈ (removeFiles env logger files r).1.fs) : f ∈ r.fs := by
  induction files generalizing r with
  | nil => exact h
  | cons file rest ih =>
    unfold removeFiles at h
    split at h
    · rename_i r1 err heq
      have hsub : ∀ g, g ∈ r1.fs → g ∈ r.fs := by
        intro g hg
        have h1 : g ∈ (osRemove env file r).1.fs := by rw [heq]; exact hg
        exact osRemove_fs_subset env file r g h1
      cases logger with
      | nil =>
        simp only [logError] at h
        exact hsub f h
      | working =>
        simp only [logError] at h
        exact hsub f (ih (r1.emit (Event.log ["failed to remove file", err])) h)
    · rename_i r1 heq
      have h1 : f ∈ (osRemove env file r).1.fs := by rw [heq]; exact ih _ h
      exact osRemove_fs_subset env file r f h1

theorem osRemove_of_ok (env : Env Segment Entry Time) (p : String) (r : Run)
    (hex : r.fs.fileExists p = true) (h : env.removeErr p = none) :
    osRemove env p r =
      ({ fs := r.fs.remove p, events := r.events ++ [Event.osRemove p true] }, none) := by
  simp [osRemove, hex, h]

theorem removeFiles_clean (env : Env Segment Entry Time) (logger : Logger)
    (files : List String) (r : Run) (hnodup : files.Nodup)
    (hex : ∀ p ∈ files, r.fs.fileExists p = true)
    (hok : ∀ p ∈ files, env.removeErr p = none) :
    removeFiles env logger files r =
      ({ fs := files.foldl FS.remove r.fs, events := r.events ++ removeEvents files },
        Ending.returned ()) := by
  induction files generalizing r with
  | nil => simp [removeFiles, removeEvents]
  | cons p rest ih =>
    have hp := osRemove_of_ok env p r (hex p (by simp)) (hok p (by simp))
    obtain ⟨hnot, hrest⟩ := List.nodup_cons.mp hnodup
    have hex2 : ∀ q ∈ rest,
        ({ fs := r.fs.remove p, events := r.events ++ [Event.osRemove p true] } : Run).fs.fileExists q
          = true := by
      intro q hq
      have hne : q ≠ p := fun e => hnot (e ▸ hq)
      show (r.fs.remove p).fileExists q = true
      rw [FS.fileExists_remove_of_ne _ _ _ hne]
      exact hex q (by simp [hq])
    have hok2 : ∀ q ∈ rest, env.removeErr q = none := fun q hq => hok q (by simp [hq])
    simp only [removeFiles, hp]
    rw [ih _ hrest hex2 hok2]
    simp [removeEvents]

theorem removeFiles_working (env : Env Segment Entry Time) (files : List String) (r : Run) :
    (removeFiles env Logger.working files r).2 = Ending.returned () ∧
    (∀ e ∈ r.events, e ∈ (removeFiles env Logger.working files r).1.events) ∧
    (∀ p ∈ files, ∃ ok, Event.osRemove p ok ∈ (removeFiles env Logger.working files r).1.events) := by
  induction files generalizing r with
  | nil => exact ⟨rfl, fun e he => he, by simp⟩
  | cons file rest ih =>
    obtain ⟨ok, hev⟩ := osRemove_events env file r
    unfold removeFiles
    rcases hos : osRemove env file r with ⟨r1, _ | err⟩
    · rw [hos] at hev
      simp only at hev ⊢
      obtain ⟨h1, h2, h3⟩ := ih r1
      refine ⟨h1, ?_, ?_⟩
      · intro e he
        exact h2 e (by rw [hev]; simp [he])
      · intro p hp
        rcases List.mem_cons.mp hp with e | hr
        · subst e
          exact ⟨ok, h2 _ (by rw [hev]; simp)⟩
        · exact h3 p hr
    · rw [hos] at hev
      simp only [logError] at hev ⊢
      obtain ⟨h1, h2, h3⟩ := ih (r1.emit (Event.log ["failed to remove file", err]))
      refine ⟨h1, ?_, ?_⟩
      · intro e he
        exact h2 e (by simp [Run.emit, hev, he])
      · intro p hp
        rcases List.mem_cons.mp hp with e | hr
        · subst e
          exact ⟨ok, h2 _ (by simp [Run.emit, hev])⟩
        · exact h3 p hr

end SweepLoop

section SweepClaims

variable {Segment Entry Time : Type}

theorem cleanupConcatTxtFiles_of_listed (env : Env Segment Entry Time) (logger : Logger)
    (c : concater) (r : Run) (files : List String)
    (hglob : globResult env (sweepPattern env.concatTxtDir) r.fs = .ok files) :
    cleanupConcatTxtFiles env logger c r =
      match removeFiles env logger files
          (r.emit (Event.glob (sweepPattern env.concatTxtDir) true)) with
      | (r2, .panicked) => (r2, .panicked)
      | (r2, .returned _) => (r2, .returned none) := by
  have hg : globResult env (Join env.concatTxtDir (Sprintf conactTxtFilePattern "*")) r.fs
      = .ok files := hglob
  simp only [cleanupConcatTxtFiles, Glob, hg, sweepPattern]

theorem cleanupConcatTxtFiles_of_failed (env : Env Segment Entry Time) (logger : Logger)
    (c : concater) (r : Run)
    (e : Error) (hglob : globResult env (sweepPattern env.concatTxtDir) r.fs = .error e) :
    cleanupConcatTxtFiles env logger c r =
      match logError logger ["failed to list files in /tmp", e]
          (r.emit (Event.glob (sweepPattern env.concatTxtDir) false)) with
      | none => (r.emit (Event.glob (sweepPattern env.concatTxtDir) false), .panicked)
      | some r2 => (r2, .returned (some e)) := by
  have hg : globResult env (Join env.concatTxtDir (Sprintf conactTxtFilePattern "*")) r.fs
      = .error e := hglob
  simp only [cleanupConcatTxtFiles, Glob, hg, sweepPattern]

theorem globResult_sweepPattern (env : Env Segment Entry Time) (fs : FS)
    (hmeta : hasMeta (dirPrefix env.concatTxtDir).data = false)
    (hread : env.readDirErr (dirPrefix env.concatTxtDir) = none) :
    globResult env (sweepPattern env.concatTxtDir) fs =
      .ok (fs.paths.filter (globMatches (sweepPattern env.concatTxtDir))).dedup := by
  have hfile : isStarPattern "concat_*.txt".data = true := by decide
  have hread2 : env.readDirErr ⟨(dirPrefix env.concatTxtDir).data⟩ = none := hread
  simp only [globResult, splitChars_sweepPattern, hmeta, hfile, hread2]
  rfl

theorem mem_listing (dir : String) (fs : FS) (p : String) :
    p ∈ (fs.paths.filter (globMatches (sweepPattern dir))).dedup ↔
      p ∈ fs.paths ∧ IsPlanFilePath dir p := by
  rw [List.mem_dedup, List.mem_filter, globMatches_sweepPattern]

theorem FS.mem_paths (fs : FS) (f : String × String) (h : f ∈ fs) : f.1 ∈ fs.paths :=
  List.mem_map_of_mem _ h

theorem FS.fileExists_iff (fs : FS) (p : String) :
    fs.fileExists p = true ↔ ∃ f ∈ fs, f.1 = p := by
  simp [FS.fileExists]

theorem FS.fileExists_of_mem_paths (fs : FS) (p : String) (h : p ∈ fs.paths) :
    fs.fileExists p = true := by
  obtain ⟨f, hf, hp⟩ := List.mem_map.mp h
  exact (FS.fileExists_iff fs p).mpr ⟨f, hf, hp⟩

/-- C7 (amended). In a transient directory whose path has none of the
metacharacters of `filepath.Glob` and which is read completely (so that the
listing cannot fail and holds every file of it that matches), and when every
removal of a listed file succeeds, `cleanupConcatTxtFiles` returns nil, whatever
the logger, and leaves no file of the transient directory whose name matches
`concat_*.txt` (in particular none at a path `generateConcatFilePath`
produces); every other file is left in place, unchanged, and no file is
added. -/
theorem cleanupConcatTxtFiles_sweeps (env : Env Segment Entry Time) (logger : Logger)
    (c : concater) (r : Run)
    (hmeta : hasMeta (dirPrefix env.concatTxtDir).data = false)
    (hread : env.readDirErr (dirPrefix env.concatTxtDir) = none)
    (hrm : ∀ p ∈ r.fs.paths, IsPlanFilePath env.concatTxtDir p → env.removeErr p = none) :
    (cleanupConcatTxtFiles env logger c r).2 = Ending.returned none ∧
    (∀ f ∈ (cleanupConcatTxtFiles env logger c r).1.fs, ¬ IsPlanFilePath env.concatTxtDir f.1) ∧
    (∀ u, isUUIDString u = true →
      (cleanupConcatTxtFiles env logger c r).1.fs.fileExists
        (generateConcatFilePath env.concatTxtDir u) = false) ∧
    (∀ f ∈ r.fs, ¬ IsPlanFilePath env.concatTxtDir f.1 →
      f ∈ (cleanupConcatTxtFiles env logger c r).1.fs) ∧
    (∀ f ∈ (cleanupConcatTxtFiles env logger c r).1.fs, f ∈ r.fs) := by
  have hclean := removeFiles_clean env logger
    (r.fs.paths.filter (globMatches (sweepPattern env.concatTxtDir))).dedup
    (r.emit (Event.glob (sweepPattern env.concatTxtDir) true))
    (List.nodup_dedup _)
    (fun p hp => FS.fileExists_of_mem_paths r.fs p ((mem_listing _ _ _).mp hp).1)
    (fun p hp => hrm p ((mem_listing _ _ _).mp hp).1 ((mem_listing _ _ _).mp hp).2)
  rw [cleanupConcatTxtFiles_of_listed env logger c r _
    (globResult_sweepPattern env r.fs hmeta hread), hclean]
  simp only [Run.emit]
  have hmem : ∀ f, f ∈ List.foldl FS.remove r.fs
      (r.fs.paths.filter (globMatches (sweepPattern env.concatTxtDir))).dedup ↔
      f ∈ r.fs ∧ ¬ IsPlanFilePath env.concatTxtDir f.1 := by
    intro f
    rw [FS.mem_foldl_remove, mem_listing]
    constructor
    · rintro ⟨hf, hn⟩
      exact ⟨hf, fun hp => hn ⟨FS.mem_paths _ f hf, hp⟩⟩
    · rintro ⟨hf, hn⟩
      exact ⟨hf, fun hp => hn hp.2⟩
  refine ⟨trivial, fun f hf => ((hmem f).mp hf).2, ?_, fun f hf hn => (hmem f).mpr ⟨hf, hn⟩,
    fun f hf => ((hmem f).mp hf).1⟩
  intro u hu
  rw [Bool.eq_false_iff]
  intro hex
  obtain ⟨f, hf, hfp⟩ := (FS.fileExists_iff _ _).mp hex
  apply ((hmem f).mp hf).2
  rw [hfp]
  exact isPlanFilePath_generate _ u (isUUIDString_not_mem u hu)

/-- Counterexample to C7 as worded: in a transient directory whose name is a
malformed pattern the listing fails, no removal is attempted (so none fails)
and the plan file left there, at a path `generateConcatFilePath` produces, is
still there after the sweep. -/
theorem cleanupConcatTxtFiles_listing_failure_keeps_orphans :
    cleanupConcatTxtFiles demoEnvGlobFails Logger.working demoConcater demoRunBadDir =
      ({ fs := demoRunBadDir.fs
         events := [Event.glob "/tmp/[/concat_*.txt" false,
           Event.log ["failed to list files in /tmp", "syntax error in pattern"]] },
        Ending.returned (some "syntax error in pattern")) ∧
    isUUIDString "123e4567-e89b-12d3-a456-426614174000" = true ∧
    (cleanupConcatTxtFiles demoEnvGlobFails Logger.working demoConcater
      demoRunBadDir).1.fs.fileExists
      (generateConcatFilePath demoEnvGlobFails.concatTxtDir
        "123e4567-e89b-12d3-a456-426614174000") = true := by
  decide

/-- The sweep of a directory that cannot be read: `filepath.Glob` ignores the
failure and lists nothing, so the sweep returns nil, attempts no removal and
the orphans stay. -/
theorem cleanupConcatTxtFiles_unreadable_directory :
    cleanupConcatTxtFiles demoEnvUnreadable Logger.working demoConcater demoRunOrphans =
      ({ fs := demoRunOrphans.fs, events := [Event.glob "/tmp/concat_*.txt" true] },
        Ending.returned none) := by
  decide

/-- Witness of C7 (amended): two orphans are swept, the other files stay, with
a nil logger. -/
theorem cleanupConcatTxtFiles_sweeps_witness :
    (cleanupConcatTxtFiles demoEnv Logger.nil demoConcater demoRunOrphans).2
      = Ending.returned none ∧
    (∀ f ∈ (cleanupConcatTxtFiles demoEnv Logger.nil demoConcater demoRunOrphans).1.fs,
      ¬ IsPlanFilePath demoEnv.concatTxtDir f.1) ∧
    (cleanupConcatTxtFiles demoEnv Logger.nil demoConcater demoRunOrphans).1.fs
      = [("/tmp/notes.txt", "n"), ("/data/a.mp4", "A")] :=
  ⟨(cleanupConcatTxtFiles_sweeps demoEnv Logger.nil demoConcater demoRunOrphans (by decide) rfl
      (fun _ _ _ => rfl)).1,
   (cleanupConcatTxtFiles_sweeps demoEnv Logger.nil demoConcater demoRunOrphans (by decide) rfl
      (fun _ _ _ => rfl)).2.1, by decide⟩

theorem cleanupConcatTxtFiles_working (env : Env Segment Entry Time) (c : concater) (r : Run) :
    (cleanupConcatTxtFiles env Logger.working c r).2 =
      Ending.returned
        (match globResult env (sweepPattern env.concatTxtDir) r.fs with
          | .error e => some e
          | .ok _ => none) := by
  cases h : globResult env (sweepPattern env.concatTxtDir) r.fs with
  | error e =>
    rw [cleanupConcatTxtFiles_of_failed env Logger.working c r e h]
    rfl
  | ok files =>
    rw [cleanupConcatTxtFiles_of_listed env Logger.working c r files h]
    have h1 := (removeFiles_working env files
      (r.emit (Event.glob (sweepPattern env.concatTxtDir) true))).1
    rcases hrf : removeFiles env Logger.working files
      (r.emit (Event.glob (sweepPattern env.concatTxtDir) true)) with ⟨r2, e2⟩
    rw [hrf] at h1
    simp only at h1
    subst h1
    rfl

/-- C8 (amended). With a logger that is not nil, `newConcater` always returns
a concater and a nil error, whatever the sweep does: when the listing fails and
when removals fail. `cleanupConcatTxtFiles` then returns an error exactly when
the listing fails (and then that error), and when the listing succeeds a
removal is attempted for every listed file, whether or not other removals
fail. -/
theorem newConcater_never_fails (env : Env Segment Entry Time)
    (storagePath uploadPath : String) (logger : Logger) (r : Run)
    (hlog : logger ≠ Logger.nil) :
    (newConcater env storagePath uploadPath logger r).2 =
      Ending.returned
        (some ({ storagePath := storagePath
                 uploadPath := uploadPath
                 segmentDur := env.segmentSeconds * 1000000000 }, logger), none) ∧
    (∀ c, ∃ res, (cleanupConcatTxtFiles env logger c r).2 = Ending.returned res ∧
      ∀ e, res = some e ↔ globResult env (sweepPattern env.concatTxtDir) r.fs = .error e) ∧
    (∀ files, globResult env (sweepPattern env.concatTxtDir) r.fs = .ok files →
      ∀ p ∈ files,
        ∃ ok, Event.osRemove p ok
          ∈ (newConcater env storagePath uploadPath logger r).1.events) := by
  have hw : logger = Logger.working := by
    cases logger with
    | nil => exact absurd rfl hlog
    | working => rfl
  subst hw
  refine ⟨?_, ?_, ?_⟩
  · have hc := cleanupConcatTxtFiles_working env
      { storagePath := storagePath, uploadPath := uploadPath,
        segmentDur := env.segmentSeconds * 1000000000 } r
    simp only [newConcater]
    rcases hcl : cleanupConcatTxtFiles env Logger.working
      { storagePath := storagePath, uploadPath := uploadPath,
        segmentDur := env.segmentSeconds * 1000000000 } r with ⟨r1, e1⟩
    rw [hcl] at hc
    simp only at hc
    rw [hc]
    cases (match globResult env (sweepPattern env.concatTxtDir) r.fs with
      | .error e => some e
      | .ok _ => none : Option Error) with
    | none => rfl
    | some e => rfl
  · intro c
    refine ⟨_, cleanupConcatTxtFiles_working env c r, ?_⟩
    intro e
    cases h : globResult env (sweepPattern env.concatTxtDir) r.fs with
    | error e2 => simp
    | ok files => simp
  · intro files hglob p hp
    have h3 := (removeFiles_working env files
      (r.emit (Event.glob (sweepPattern env.concatTxtDir) true))).2.2 p hp
    have h1 := (removeFiles_working env files
      (r.emit (Event.glob (sweepPattern env.concatTxtDir) true))).1
    simp only [newConcater, cleanupConcatTxtFiles_of_listed env _ _ r files hglob]
    rcases hrf : removeFiles env Logger.working files
      (r.emit (Event.glob (sweepPattern env.concatTxtDir) true)) with ⟨r2, e2⟩
    rw [hrf] at h1 h3
    simp only at h1 h3
    subst h1
    exact h3

/-- Counterexample to C8 as worded: handed the nil logger, `newConcater`
panics when it has to log a listing that failed, and when it has to log a
removal that failed. -/
theorem newConcater_nil_logger_panics :
    (newConcater demoEnvGlobFails "/data" "/upload" Logger.nil demoRunBadDir).2
      = Ending.panicked ∧
    (newConcater demoEnvSweepRemoveFails "/data" "/upload" Logger.nil demoRunOrphans).2
      = Ending.panicked := by
  decide

/-- Witness of C8 (amended): the removal of the first orphan is refused, the
construction succeeds all the same and the second orphan is still attempted;
and a construction whose listing fails succeeds too. -/
theorem newConcater_never_fails_witness :
    (newConcater demoEnvSweepRemoveFails "/data" "/upload" Logger.working demoRunOrphans).2 =
      Ending.returned
        (some ({ storagePath := "/data", uploadPath := "/upload", segmentDur := 30000000000 },
          Logger.working), none) ∧
    (∃ ok, Event.osRemove "/tmp/concat_b.txt" ok ∈
      (newConcater demoEnvSweepRemoveFails "/data" "/upload" Logger.working
        demoRunOrphans).1.events) ∧
    (newConcater demoEnvSweepRemoveFails "/data" "/upload" Logger.working demoRunOrphans).1.fs
      = [("/tmp/concat_a.txt", "x"), ("/tmp/notes.txt", "n"), ("/data/a.mp4", "A")] ∧
    (newConcater demoEnvGlobFails "/data" "/upload" Logger.working demoRunBadDir).2 =
      Ending.returned
        (some ({ storagePath := "/data", uploadPath := "/upload", segmentDur := 30000000000 },
          Logger.working), none) :=
  ⟨(newConcater_never_fails demoEnvSweepRemoveFails "/data" "/upload" Logger.working
      demoRunOrphans (by decide)).1,
   (newConcater_never_fails demoEnvSweepRemoveFails "/data" "/upload" Logger.working
      demoRunOrphans (by decide)).2.2
      ["/tmp/concat_a.txt", "/tmp/concat_b.txt"] rfl "/tmp/concat_b.txt" (by decide),
   by decide,
   (newConcater_never_fails demoEnvGlobFails "/data" "/upload" Logger.working demoRunBadDir
      (by decide)).1⟩

end SweepClaims

/-! ## The executor -/

section ConcatFacts

variable {Segment Entry Time : Type}

theorem Concat_listing_failed (env : Env Segment Entry Time) (c : concater) (start stop : Time)
    (path : String) (r : Run) (err : Error)
    (hlist : env.getSortedFiles c.storagePath r.fs = .error err) :
    Concat env c start stop path r =
      ({ fs := r.fs
         events := r.events ++ [Event.getSortedFiles c.storagePath,
           Event.log ["failed to get sorted files", err]] }, some err) := by
  simp [Concat, hlist, Run.emit]

theorem Concat_planned (env : Env Segment Entry Time) (c : concater) (start stop : Time)
    (path : String) (r : Run) (storageFiles : List Segment)
    (hlist : env.getSortedFiles c.storagePath r.fs = .ok storageFiles)
    (hne : storageFiles ≠ [])
    (hval : env.validateTimeRange storageFiles start = none)
    (hmatch : env.matchStorageToRange storageFiles start stop ≠ []) :
    Concat env c start stop path r =
      match writeConcatFileEntries env (env.matchStorageToRange storageFiles start stop)
          (generateConcatFilePath env.concatTxtDir env.newUUID)
          (planningRun c (generateConcatFilePath env.concatTxtDir env.newUUID) r) with
      | (r1, some err) =>
        (removeConcatFile env (generateConcatFilePath env.concatTxtDir env.newUUID) r1, some err)
      | (r1, none) =>
        (removeConcatFile env (generateConcatFilePath env.concatTxtDir env.newUUID)
          { fs := (env.video_store_concat (generateConcatFilePath env.concatTxtDir env.newUUID)
              path r1.fs).1
            events := r1.events ++
              [Event.video_store_concat (generateConcatFilePath env.concatTxtDir env.newUUID) path
                (env.video_store_concat (generateConcatFilePath env.concatTxtDir env.newUUID)
                  path r1.fs).2] },
          concatResult env (env.video_store_concat
            (generateConcatFilePath env.concatTxtDir env.newUUID) path r1.fs).2) := by
  have h : env.getSortedFiles c.storagePath (r.emit (Event.getSortedFiles c.storagePath)).fs
      = .ok storageFiles := hlist
  have hl : ¬ storageFiles.length = 0 := fun e => hne (List.length_eq_zero.mp e)
  have hm : ¬ (env.matchStorageToRange storageFiles start stop).length = 0 :=
    fun e => hmatch (List.length_eq_zero.mp e)
  simp only [Concat, h, hl, hval, hm, if_false, planningRun, concatResult]

theorem Concat_of_no_segment (env : Env Segment Entry Time) (c : concater) (start stop : Time)
    (path : String) (r : Run)
    (hlist : env.getSortedFiles c.storagePath r.fs = .ok []) :
    Concat env c start stop path r =
      ({ fs := r.fs
         events := r.events ++ [Event.getSortedFiles c.storagePath,
           Event.log ["no video data in storage" ++ ", path: " ++ path]] },
        some "no video data in storage") := by
  simp [Concat, hlist, Run.emit]

theorem Concat_of_invalid_range (env : Env Segment Entry Time) (c : concater)
    (start stop : Time) (path : String) (r : Run) (storageFiles : List Segment) (e : Error)
    (hlist : env.getSortedFiles c.storagePath r.fs = .ok storageFiles)
    (hne : storageFiles ≠ [])
    (hval : env.validateTimeRange storageFiles start = some e) :
    Concat env c start stop path r =
      ({ fs := r.fs
         events := r.events ++ [Event.getSortedFiles c.storagePath, Event.validateTimeRange] },
        some e) := by
  have hl : ¬ storageFiles.length = 0 := fun h => hne (List.length_eq_zero.mp h)
  simp [Concat, hlist, hl, hval, Run.emit]

theorem Concat_of_no_entry (env : Env Segment Entry Time) (c : concater)
    (start stop : Time) (path : String) (r : Run) (storageFiles : List Segment)
    (hlist : env.getSortedFiles c.storagePath r.fs = .ok storageFiles)
    (hne : storageFiles ≠ [])
    (hval : env.validateTimeRange storageFiles start = none)
    (hmatch : env.matchStorageToRange storageFiles start stop = []) :
    Concat env c start stop path r =
      ({ fs := r.fs
         events := r.events ++ [Event.getSortedFiles c.storagePath, Event.validateTimeRange,
           Event.matchStorageToRange] },
        some "no matching video data to save") := by
  have hl : ¬ storageFiles.length = 0 := fun h => hne (List.length_eq_zero.mp h)
  simp [Concat, hlist, hl, hval, hmatch, Run.emit]

end ConcatFacts

section ConcatClaims

variable {Segment Entry Time : Type}

/-- C4. When the listing succeeds with no segment, `Concat` returns the error
`no video data in storage` whatever `from`, `to` and the output path are; the
only things it does are the listing and one log line: the validator, the
matcher and the native routine are not called and the file system is left as it
was (no plan file is created). -/
theorem Concat_no_data (env : Env Segment Entry Time) (c : concater) (start stop : Time)
    (path : String) (r : Run)
    (hlist : env.getSortedFiles c.storagePath r.fs = .ok []) :
    Concat env c start stop path r =
      ({ fs := r.fs
         events := r.events ++ [Event.getSortedFiles c.storagePath,
           Event.log ["no video data in storage" ++ ", path: " ++ path]] },
        some "no video data in storage") :=
  Concat_of_no_segment env c start stop path r hlist

/-- Witness of C4 at the empty demo store. -/
theorem Concat_no_data_witness :
    Concat demoEnvEmpty demoConcater 5 25 "/out.mp4" demoRun =
      ({ fs := demoRun.fs
         events := demoRun.events ++ [Event.getSortedFiles demoConcater.storagePath,
           Event.log ["no video data in storage" ++ ", path: " ++ "/out.mp4"]] },
        some "no video data in storage") :=
  Concat_no_data demoEnvEmpty demoConcater 5 25 "/out.mp4" demoRun rfl

/-- C5. When the catalog is not empty and `validateTimeRange(segments, from)`
returns the error `e`, `Concat` returns exactly `e`; it has listed and
validated and nothing else: no plan file is created (the file system is as it
was) and the native routine is not called. -/
theorem Concat_validation_fails_fast (env : Env Segment Entry Time) (c : concater)
    (start stop : Time) (path : String) (r : Run) (storageFiles : List Segment) (e : Error)
    (hlist : env.getSortedFiles c.storagePath r.fs = .ok storageFiles)
    (hne : storageFiles ≠ [])
    (hval : env.validateTimeRange storageFiles start = some e) :
    Concat env c start stop path r =
      ({ fs := r.fs
         events := r.events ++ [Event.getSortedFiles c.storagePath, Event.validateTimeRange] },
        some e) :=
  Concat_of_invalid_range env c start stop path r storageFiles e hlist hne hval

/-- Witness of C5: the catalog covers the seconds 0 to 100 and the request
starts at 150. -/
theorem Concat_validation_fails_fast_witness :
    Concat demoEnvRange demoConcater 150 160 "/out.mp4" demoRun =
      ({ fs := demoRun.fs
         events := demoRun.events ++ [Event.getSortedFiles demoConcater.storagePath,
           Event.validateTimeRange] },
        some "requested range is not available") :=
  Concat_validation_fails_fast demoEnvRange demoConcater 150 160 "/out.mp4" demoRun
    [0, 10, 20, 30, 40, 50, 60, 70, 80, 90] "requested range is not available" rfl (by decide)
    (by decide)

/-- C6. When the catalog is not empty, the validation succeeds and
`matchStorageToRange` returns no entry, `Concat` returns the error
`no matching video data to save`; it has listed, validated and matched and
nothing else: no plan file is created and the native routine is not called. -/
theorem Concat_no_match (env : Env Segment Entry Time) (c : concater)
    (start stop : Time) (path : String) (r : Run) (storageFiles : List Segment)
    (hlist : env.getSortedFiles c.storagePath r.fs = .ok storageFiles)
    (hne : storageFiles ≠ [])
    (hval : env.validateTimeRange storageFiles start = none)
    (hmatch : env.matchStorageToRange storageFiles start stop = []) :
    Concat env c start stop path r =
      ({ fs := r.fs
         events := r.events ++ [Event.getSortedFiles c.storagePath, Event.validateTimeRange,
           Event.matchStorageToRange] },
        some "no matching video data to save") :=
  Concat_of_no_entry env c start stop path r storageFiles hlist hne hval hmatch

/-- Witness of C6 at a store whose matcher finds nothing. -/
theorem Concat_no_match_witness :
    Concat demoEnvNoMatch demoConcater 5 25 "/out.mp4" demoRun =
      ({ fs := demoRun.fs
         events := demoRun.events ++ [Event.getSortedFiles demoConcater.storagePath,
           Event.validateTimeRange, Event.matchStorageToRange] },
        some "no matching video data to save") :=
  Concat_no_match demoEnvNoMatch demoConcater 5 25 "/out.mp4" demoRun [0, 30, 60] rfl
    (by decide) rfl rfl

end ConcatClaims

section CleanupFacts

variable {Segment Entry Time : Type}

theorem mem_generatedPaths (events : List Event) (p : String) :
    p ∈ generatedPaths events ↔ Event.generateConcatFilePath p ∈ events := by
  simp only [generatedPaths, List.mem_filterMap]
  constructor
  · rintro ⟨e, he, hp⟩
    cases e <;> simp at hp
    subst hp
    exact he
  · intro h
    exact ⟨_, h, rfl⟩

theorem generatedPaths_append (a b : List Event) :
    generatedPaths (a ++ b) = generatedPaths a ++ generatedPaths b := by
  simp [generatedPaths, List.filterMap_append]

theorem writeLines_events (env : Env Segment Entry Time) (p : String) (lines : List String)
    (r : Run) (k : Nat) :
    ∃ tail, (writeLines env p lines (r, k)).1.1.events = r.events ++ tail ∧
      generatedPaths tail = [] := by
  induction lines generalizing r k with
  | nil => exact ⟨[], by simp [writeLines], rfl⟩
  | cons line rest ih =>
    unfold writeLines
    cases h : env.writeErr k with
    | some ne => exact ⟨[Event.writeString p (line ++ "\n") false], rfl, rfl⟩
    | none =>
      obtain ⟨tail, ht, hg⟩ := ih
        { fs := r.fs.append p (line ++ "\n"),
          events := r.events ++ [Event.writeString p (line ++ "\n") true] } (k + 1)
      refine ⟨Event.writeString p (line ++ "\n") true :: tail, ?_, ?_⟩
      · simp only [ht, List.append_assoc, List.singleton_append]
      · simpa [generatedPaths] using hg

theorem writeConcatFileEntries_events (env : Env Segment Entry Time) (entries : List Entry)
    (p : String) (r : Run) :
    ∃ tail, (writeConcatFileEntries env entries p r).1.events = r.events ++ tail ∧
      generatedPaths tail = [] := by
  unfold writeConcatFileEntries
  cases h : env.createErr p with
  | some e => exact ⟨[Event.osCreate p false], rfl, rfl⟩
  | none =>
    obtain ⟨tail, ht, hg⟩ := writeLines_events env p (planLines env entries)
      { fs := r.fs.create p "", events := r.events ++ [Event.osCreate p true] } 0
    refine ⟨Event.osCreate p true :: (tail ++ [Event.fileClose p]), ?_, ?_⟩
    · simp only [writeEntries_eq_writeLines, Run.emit, ht, List.append_assoc,
        List.singleton_append, List.cons_append, List.nil_append]
    · have : generatedPaths (Event.osCreate p true :: (tail ++ [Event.fileClose p]))
          = generatedPaths tail := by
        simp [generatedPaths, List.filterMap_append]
      rw [this, hg]

theorem writeConcatFileEntries_ok (env : Env Segment Entry Time) (entries : List Entry)
    (p : String) (r : Run) (hc : env.createErr p = none)
    (hw : ∀ k, k < (planLines env entries).length → env.writeErr k = none) :
    writeConcatFileEntries env entries p r =
      ({ fs := r.fs.create p (concatLines (planLines env entries))
         events := r.events ++ [Event.osCreate p true] ++ writeEvents p (planLines env entries)
           ++ [Event.fileClose p] }, none) := by
  have hw2 : ∀ j, j < (planLines env entries).length → env.writeErr (0 + j) = none := by
    intro j hj
    simpa using hw j hj
  simp only [writeConcatFileEntries, hc, writeEntries_eq_writeLines,
    writeLines_ok env p _ _ 0 hw2, Run.emit, FS.create_append, String.empty_append]

theorem removeConcatFile_events (env : Env Segment Entry Time) (p : String) (r : Run) :
    ∃ tail, (removeConcatFile env p r).events = r.events ++ tail ∧ generatedPaths tail = [] := by
  unfold removeConcatFile osStat
  by_cases hex : r.fs.fileExists p = true
  · cases hs : env.statErr p with
    | some e => exact ⟨[Event.osStat p false], by simp [hex, hs, Run.emit], rfl⟩
    | none =>
      cases hr : env.removeErr p with
      | some e =>
        exact ⟨[Event.osStat p true, Event.osRemove p false,
          Event.log ["failed to remove concat file %s, err: %s", p, e]],
          by simp [hex, hs, hr, osRemove, Run.emit], rfl⟩
      | none =>
        exact ⟨[Event.osStat p true, Event.osRemove p true],
          by simp [hex, hs, hr, osRemove, Run.emit], rfl⟩
  · exact ⟨[Event.osStat p false], by simp [hex, Run.emit], rfl⟩

theorem removeConcatFile_removes (env : Env Segment Entry Time) (p : String) (r : Run)
    (hstat : env.statErr p = none) (hrm : env.removeErr p = none) :
    (removeConcatFile env p r).fs.fileExists p = false := by
  unfold removeConcatFile osStat
  by_cases hex : r.fs.fileExists p = true
  · simp [hex, hstat, hrm, osRemove, Run.emit, FS.fileExists_remove]
  · simp only [hex, Bool.false_eq_true, if_false, Run.emit]

theorem removeConcatFile_of_remove_failed (env : Env Segment Entry Time) (p : String) (r : Run)
    (e : Error) (hex : r.fs.fileExists p = true) (hstat : env.statErr p = none)
    (hrm : env.removeErr p = some e) :
    removeConcatFile env p r =
      { fs := r.fs
        events := r.events ++ [Event.osStat p true, Event.osRemove p false,
          Event.log ["failed to remove concat file %s, err: %s", p, e]] } := by
  simp [removeConcatFile, osStat, osRemove, hex, hstat, hrm, Run.emit]

theorem removeConcatFile_of_no_file (env : Env Segment Entry Time) (p : String) (r : Run)
    (hex : r.fs.fileExists p = false) :
    removeConcatFile env p r = { fs := r.fs, events := r.events ++ [Event.osStat p false] } := by
  simp [removeConcatFile, osStat, hex, Run.emit]

end CleanupFacts

section ExecutorClaims

variable {Segment Entry Time : Type}

theorem writeLines_congr (env env2 : Env Segment Entry Time) (h : env2.writeErr = env.writeErr)
    (p : String) (lines : List String) (st : Run × Nat) :
    writeLines env2 p lines st = writeLines env p lines st := by
  induction lines generalizing st with
  | nil => rfl
  | cons line rest ih =>
    obtain ⟨r, k⟩ := st
    simp only [writeLines, h, ih]

theorem writeConcatFileEntries_congr (env env2 : Env Segment Entry Time)
    (hc : env2.createErr = env.createErr) (hw : env2.writeErr = env.writeErr)
    (hs : env2.entryString = env.entryString) (entries : List Entry) (p : String) (r : Run) :
    writeConcatFileEntries env2 entries p r = writeConcatFileEntries env entries p r := by
  have hl : planLines env2 entries = planLines env entries := by simp [planLines, hs]
  simp only [writeConcatFileEntries, writeEntries_eq_writeLines, hc, hl,
    writeLines_congr env env2 hw]

/-- C2. In a call that reaches the native routine (the listing gave segments,
the validation passed, the matcher gave entries, the plan file was created and
every write succeeded) the routine is called on the plan path and the output
path with the complete plan in place, and with `ret` the code it returns:
`Concat` returns nil if and only if `ret` is `VIDEO_STORE_CONCAT_RESP_OK`; it
returns `failed to concat segment files` when `ret` is
`VIDEO_STORE_CONCAT_RESP_ERROR`; for any other code it returns
`failed to concat segment files: error: ` followed by `ffmpegError(ret)`. The
two constants of `concat.h` are taken to be different. -/
theorem Concat_native_result (env : Env Segment Entry Time) (c : concater) (start stop : Time)
    (path : String) (r : Run) (storageFiles : List Segment)
    (hlist : env.getSortedFiles c.storagePath r.fs = .ok storageFiles)
    (hne : storageFiles ≠ [])
    (hval : env.validateTimeRange storageFiles start = none)
    (hmatch : env.matchStorageToRange storageFiles start stop ≠ [])
    (hcreate : env.createErr (generateConcatFilePath env.concatTxtDir env.newUUID) = none)
    (hwrite : ∀ k,
      k < (planLines env (env.matchStorageToRange storageFiles start stop)).length →
        env.writeErr k = none)
    (hconst : env.VIDEO_STORE_CONCAT_RESP_OK ≠ env.VIDEO_STORE_CONCAT_RESP_ERROR)
    (ret : Int)
    (hret : ret = (env.video_store_concat (generateConcatFilePath env.concatTxtDir env.newUUID)
      path (r.fs.create (generateConcatFilePath env.concatTxtDir env.newUUID)
        (concatLines (planLines env (env.matchStorageToRange storageFiles start stop))))).2) :
    Event.video_store_concat (generateConcatFilePath env.concatTxtDir env.newUUID) path ret
      ∈ (Concat env c start stop path r).1.events ∧
    ((Concat env c start stop path r).2 = none ↔ ret = env.VIDEO_STORE_CONCAT_RESP_OK) ∧
    (ret = env.VIDEO_STORE_CONCAT_RESP_ERROR →
      (Concat env c start stop path r).2 = some "failed to concat segment files") ∧
    (ret ≠ env.VIDEO_STORE_CONCAT_RESP_OK → ret ≠ env.VIDEO_STORE_CONCAT_RESP_ERROR →
      (Concat env c start stop path r).2
        = some ("failed to concat segment files: error: " ++ env.ffmpegError ret)) := by
  rw [Concat_planned env c start stop path r storageFiles hlist hne hval hmatch,
    writeConcatFileEntries_ok env _ _ _ hcreate hwrite]
  simp only [planningRun, Run.emit]
  rw [← hret]
  refine ⟨?_, ?_, ?_, ?_⟩
  · obtain ⟨tail, ht, _⟩ := removeConcatFile_events env
      (generateConcatFilePath env.concatTxtDir env.newUUID)
      { fs := (env.video_store_concat (generateConcatFilePath env.concatTxtDir env.newUUID) path
          (r.fs.create (generateConcatFilePath env.concatTxtDir env.newUUID)
            (concatLines (planLines env (env.matchStorageToRange storageFiles start stop))))).1
        events := r.events ++ [Event.getSortedFiles c.storagePath] ++ [Event.validateTimeRange]
          ++ [Event.matchStorageToRange]
          ++ [Event.generateConcatFilePath (generateConcatFilePath env.concatTxtDir env.newUUID)]
          ++ [Event.osCreate (generateConcatFilePath env.concatTxtDir env.newUUID) true]
          ++ writeEvents (generateConcatFilePath env.concatTxtDir env.newUUID)
              (planLines env (env.matchStorageToRange storageFiles start stop))
          ++ [Event.fileClose (generateConcatFilePath env.concatTxtDir env.newUUID)]
          ++ [Event.video_store_concat (generateConcatFilePath env.concatTxtDir env.newUUID)
              path ret] }
    rw [ht]
    simp
  · unfold concatResult
    constructor
    · intro h
      by_contra hne2
      rw [if_neg hne2] at h
      split at h <;> simp at h
    · intro h
      rw [if_pos h]
  · intro h
    have : ret ≠ env.VIDEO_STORE_CONCAT_RESP_OK := fun e => hconst (e.symm.trans h)
    unfold concatResult
    rw [if_neg this, if_pos h]
  · intro h1 h2
    simp [concatResult, h1, h2]

/-- Witness of C2: the routine returns 0, then 1, then the diagnostic code 42
(scenario D). -/
theorem Concat_native_result_witness :
    ((Concat demoEnv demoConcater 5 65 "/out.mp4" demoRun).2 = none ↔
      (0 : Int) = demoEnv.VIDEO_STORE_CONCAT_RESP_OK) ∧
    (Concat demoEnvNativeError demoConcater 5 65 "/out.mp4" demoRun).2
      = some "failed to concat segment files" ∧
    (Concat demoEnvNativeDiagnostic demoConcater 5 65 "/out.mp4" demoRun).2
      = some ("failed to concat segment files: error: " ++
          demoEnvNativeDiagnostic.ffmpegError 42) :=
  ⟨(Concat_native_result demoEnv demoConcater 5 65 "/out.mp4" demoRun [0, 30, 60] rfl
      (by decide) rfl (by decide) rfl (fun _ _ => rfl) (by decide) 0 rfl).2.1,
   (Concat_native_result demoEnvNativeError demoConcater 5 65 "/out.mp4" demoRun [0, 30, 60] rfl
      (by decide) rfl (by decide) rfl (fun _ _ => rfl) (by decide) 1 rfl).2.2.1 rfl,
   (Concat_native_result demoEnvNativeDiagnostic demoConcater 5 65 "/out.mp4" demoRun [0, 30, 60]
      rfl (by decide) rfl (by decide) rfl (fun _ _ => rfl) (by decide) 42 rfl).2.2.2
      (by decide) (by decide)⟩

/-- C3. The value `Concat` returns does not depend on how the deferred
deletion of the plan file goes: it is the same for every behaviour of `os.Stat`
and `os.Remove`. When the removal fails, the deferred function leaves the file
system as it is and logs the failure; when there is no file it does nothing. -/
theorem Concat_result_ignores_cleanup (env : Env Segment Entry Time) (c : concater)
    (start stop : Time) (path : String) (r : Run) :
    (∀ statErr2 removeErr2 : String → Option Error,
      (Concat { env with statErr := statErr2, removeErr := removeErr2 } c start stop path r).2
        = (Concat env c start stop path r).2) ∧
    (∀ (p : String) (r1 : Run) (e : Error), r1.fs.fileExists p = true →
      env.statErr p = none → env.removeErr p = some e →
      removeConcatFile env p r1 =
        { fs := r1.fs
          events := r1.events ++ [Event.osStat p true, Event.osRemove p false,
            Event.log ["failed to remove concat file %s, err: %s", p, e]] }) ∧
    (∀ (p : String) (r1 : Run), r1.fs.fileExists p = false →
      removeConcatFile env p r1 =
        { fs := r1.fs, events := r1.events ++ [Event.osStat p false] }) := by
  refine ⟨?_, fun p r1 e => removeConcatFile_of_remove_failed env p r1 e,
    fun p r1 => removeConcatFile_of_no_file env p r1⟩
  intro statErr2 removeErr2
  cases hlist : env.getSortedFiles c.storagePath r.fs with
  | error err =>
    rw [Concat_listing_failed env c start stop path r err hlist,
      Concat_listing_failed { env with statErr := statErr2, removeErr := removeErr2 } c start stop
        path r err hlist]
  | ok storageFiles =>
    by_cases hne : storageFiles = []
    · subst hne
      rw [Concat_of_no_segment env c start stop path r hlist,
        Concat_of_no_segment { env with statErr := statErr2, removeErr := removeErr2 } c start stop
          path r hlist]
    · cases hval : env.validateTimeRange storageFiles start with
      | some e =>
        rw [Concat_of_invalid_range env c start stop path r storageFiles e hlist hne hval,
          Concat_of_invalid_range { env with statErr := statErr2, removeErr := removeErr2 }
            c start stop path r storageFiles e hlist hne hval]
      | none =>
        by_cases hmatch : env.matchStorageToRange storageFiles start stop = []
        · rw [Concat_of_no_entry env c start stop path r storageFiles hlist hne hval hmatch,
            Concat_of_no_entry { env with statErr := statErr2, removeErr := removeErr2 }
              c start stop path r storageFiles hlist hne hval hmatch]
        · rw [Concat_planned env c start stop path r storageFiles hlist hne hval hmatch,
            Concat_planned { env with statErr := statErr2, removeErr := removeErr2 }
              c start stop path r storageFiles hlist hne hval hmatch]
          have hw := writeConcatFileEntries_congr env
            { env with statErr := statErr2, removeErr := removeErr2 } rfl rfl rfl
            (env.matchStorageToRange storageFiles start stop)
            (generateConcatFilePath env.concatTxtDir env.newUUID)
            (planningRun c (generateConcatFilePath env.concatTxtDir env.newUUID) r)
          simp only [hw]
          rcases writeConcatFileEntries env (env.matchStorageToRange storageFiles start stop)
            (generateConcatFilePath env.concatTxtDir env.newUUID)
            (planningRun c (generateConcatFilePath env.concatTxtDir env.newUUID) r)
            with ⟨r1, _ | err⟩
          · rfl
          · rfl

/-- Witness of C3: the same call with a removal that is refused, with a
removal that works and with a native routine that has already deleted the
plan. -/
theorem Concat_result_ignores_cleanup_witness :
    (Concat demoEnvRemoveFails demoConcater 5 65 "/out.mp4" demoRun).2
      = (Concat demoEnv demoConcater 5 65 "/out.mp4" demoRun).2 ∧
    removeConcatFile demoEnvRemoveFails demoPlanPath { fs := [(demoPlanPath, "x")], events := [] } =
      { fs := [(demoPlanPath, "x")]
        events := [] ++ [Event.osStat demoPlanPath true, Event.osRemove demoPlanPath false,
          Event.log ["failed to remove concat file %s, err: %s", demoPlanPath,
            "permission denied"]] } ∧
    removeConcatFile demoEnv demoPlanPath demoRun =
      { fs := demoRun.fs, events := demoRun.events ++ [Event.osStat demoPlanPath false] } :=
  ⟨(Concat_result_ignores_cleanup demoEnv demoConcater 5 65 "/out.mp4" demoRun).1
      (fun _ => none) (fun _ => some "permission denied"),
   (Concat_result_ignores_cleanup demoEnvRemoveFails demoConcater 5 65 "/out.mp4" demoRun).2.1
      demoPlanPath { fs := [(demoPlanPath, "x")], events := [] } "permission denied"
      (by decide) rfl rfl,
   (Concat_result_ignores_cleanup demoEnv demoConcater 5 65 "/out.mp4" demoRun).2.2
      demoPlanPath demoRun (by decide)⟩

end ExecutorClaims

section ArtifactClaims

variable {Segment Entry Time : Type}

theorem Concat_planned_leaves_no_plan (env : Env Segment Entry Time) (c : concater)
    (start stop : Time) (path : String) (r : Run) (storageFiles : List Segment)
    (hlist : env.getSortedFiles c.storagePath r.fs = .ok storageFiles)
    (hne : storageFiles ≠ [])
    (hval : env.validateTimeRange storageFiles start = none)
    (hmatch : env.matchStorageToRange storageFiles start stop ≠ [])
    (hstat : env.statErr (generateConcatFilePath env.concatTxtDir env.newUUID) = none)
    (hrm : env.removeErr (generateConcatFilePath env.concatTxtDir env.newUUID) = none) :
    (Concat env c start stop path r).1.fs.fileExists
        (generateConcatFilePath env.concatTxtDir env.newUUID) = false ∧
    generatedPaths (Concat env c start stop path r).1.events
      = generatedPaths r.events ++ [generateConcatFilePath env.concatTxtDir env.newUUID] := by
  rw [Concat_planned env c start stop path r storageFiles hlist hne hval hmatch]
  obtain ⟨t1, ht1, hg1⟩ := writeConcatFileEntries_events env
    (env.matchStorageToRange storageFiles start stop)
    (generateConcatFilePath env.concatTxtDir env.newUUID)
    (planningRun c (generateConcatFilePath env.concatTxtDir env.newUUID) r)
  have hplan : generatedPaths
      (planningRun c (generateConcatFilePath env.concatTxtDir env.newUUID) r).events
      = generatedPaths r.events ++ [generateConcatFilePath env.concatTxtDir env.newUUID] := by
    simp [planningRun, Run.emit, generatedPaths, List.filterMap_append]
  rcases hw : writeConcatFileEntries env (env.matchStorageToRange storageFiles start stop)
    (generateConcatFilePath env.concatTxtDir env.newUUID)
    (planningRun c (generateConcatFilePath env.concatTxtDir env.newUUID) r)
    with ⟨r1, _ | err⟩
  · rw [hw] at ht1
    simp only at ht1 ⊢
    obtain ⟨t2, ht2, hg2⟩ := removeConcatFile_events env
      (generateConcatFilePath env.concatTxtDir env.newUUID)
      { fs := (env.video_store_concat (generateConcatFilePath env.concatTxtDir env.newUUID)
          path r1.fs).1
        events := r1.events ++
          [Event.video_store_concat (generateConcatFilePath env.concatTxtDir env.newUUID) path
            (env.video_store_concat (generateConcatFilePath env.concatTxtDir env.newUUID)
              path r1.fs).2] }
    refine ⟨removeConcatFile_removes env _ _ hstat hrm, ?_⟩
    rw [ht2, ht1]
    simp only [generatedPaths_append, hplan, hg1, hg2, List.append_nil]
    simp [generatedPaths]
  · rw [hw] at ht1
    simp only at ht1 ⊢
    obtain ⟨t2, ht2, hg2⟩ := removeConcatFile_events env
      (generateConcatFilePath env.concatTxtDir env.newUUID) r1
    refine ⟨removeConcatFile_removes env _ _ hstat hrm, ?_⟩
    rw [ht2, ht1]
    simp only [generatedPaths_append, hplan, hg1, hg2, List.append_nil]

/-- C1 (amended). Provided `os.Stat` and `os.Remove` do not fail on the plan
file of the call, then for every call of `Concat` and every initial file
system, once `Concat` has returned — with nil or with any error, a failure of
`os.Create`, of a write or of the native routine included — there is no file at
a plan path generated during the call. -/
theorem Concat_leaves_no_plan_file (env : Env Segment Entry Time) (c : concater)
    (start stop : Time) (path : String) (fs : FS)
    (hstat : env.statErr (generateConcatFilePath env.concatTxtDir env.newUUID) = none)
    (hrm : env.removeErr (generateConcatFilePath env.concatTxtDir env.newUUID) = none) :
    ∀ p, Event.generateConcatFilePath p
        ∈ (Concat env c start stop path { fs := fs, events := [] }).1.events →
      (Concat env c start stop path { fs := fs, events := [] }).1.fs.fileExists p = false := by
  intro p hp
  cases hlist : env.getSortedFiles c.storagePath fs with
  | error err =>
    rw [Concat_listing_failed env c start stop path _ err hlist] at hp
    simp at hp
  | ok storageFiles =>
    by_cases hne : storageFiles = []
    · subst hne
      rw [Concat_of_no_segment env c start stop path _ hlist] at hp
      simp at hp
    · cases hval : env.validateTimeRange storageFiles start with
      | some e =>
        rw [Concat_of_invalid_range env c start stop path _ storageFiles e hlist hne hval]
          at hp
        simp at hp
      | none =>
        by_cases hmatch : env.matchStorageToRange storageFiles start stop = []
        · rw [Concat_of_no_entry env c start stop path _ storageFiles hlist hne hval hmatch] at hp
          simp at hp
        · obtain ⟨h1, h2⟩ := Concat_planned_leaves_no_plan env c start stop path
            { fs := fs, events := [] } storageFiles hlist hne hval hmatch hstat hrm
          have hp2 := (mem_generatedPaths _ p).mpr hp
          rw [h2] at hp2
          have : p = generateConcatFilePath env.concatTxtDir env.newUUID := by
            simpa [generatedPaths] using hp2
          rw [this]
          exact h1

/-- C1, as stated, fails: when `os.Remove` is refused the call returns nil,
the refusal is logged, and the plan file generated for the call is still in
the transient directory. -/
theorem Concat_removal_failure_leaves_plan_file :
    (Concat demoEnvRemoveFails demoConcater 5 65 "/out.mp4" demoRun).2 = none ∧
    Event.generateConcatFilePath demoPlanPath
      ∈ (Concat demoEnvRemoveFails demoConcater 5 65 "/out.mp4" demoRun).1.events ∧
    Event.log ["failed to remove concat file %s, err: %s", demoPlanPath, "permission denied"]
      ∈ (Concat demoEnvRemoveFails demoConcater 5 65 "/out.mp4" demoRun).1.events ∧
    (Concat demoEnvRemoveFails demoConcater 5 65 "/out.mp4" demoRun).1.fs.fileExists demoPlanPath
      = true := by
  decide

/-- Witness of C1 (amended): a successful call and a call whose third write
fails both generate the plan path and leave no file there. -/
theorem Concat_leaves_no_plan_file_witness :
    (Event.generateConcatFilePath demoPlanPath
        ∈ (Concat demoEnv demoConcater 5 65 "/out.mp4" { fs := demoRun.fs, events := [] }).1.events ∧
      (Concat demoEnv demoConcater 5 65 "/out.mp4"
        { fs := demoRun.fs, events := [] }).1.fs.fileExists demoPlanPath = false) ∧
    (Event.generateConcatFilePath demoPlanPath
        ∈ (Concat demoEnvWriteFails demoConcater 5 65 "/out.mp4"
            { fs := demoRun.fs, events := [] }).1.events ∧
      (Concat demoEnvWriteFails demoConcater 5 65 "/out.mp4"
        { fs := demoRun.fs, events := [] }).1.fs.fileExists demoPlanPath = false ∧
      (Concat demoEnvWriteFails demoConcater 5 65 "/out.mp4"
        { fs := demoRun.fs, events := [] }).2 = some "no space left on device") :=
  ⟨⟨by decide,
    Concat_leaves_no_plan_file demoEnv demoConcater 5 65 "/out.mp4" demoRun.fs rfl rfl
      demoPlanPath (by decide)⟩,
   ⟨by decide,
    Concat_leaves_no_plan_file demoEnvWriteFails demoConcater 5 65 "/out.mp4" demoRun.fs rfl rfl
      demoPlanPath (by decide), by decide⟩⟩

end ArtifactClaims

end videostore
